import Mathlib

/-!
Verification development for the `telegram_courses` repository
(`student_bot.py`, `admin_bot.py`).

The Python code is shallowly embedded: spreadsheet cell values become the
`PyVal` type, handlers become pure functions returning a new state together
with a list of effects, and the Google-Sheets / Telegram I/O boundary is
represented by explicit effect lists and oracle parameters.  Dates are
represented as serial day numbers counted from 1899-12-30 (the spreadsheet
epoch used in `check_subscriptions_and_send_reminders`).
-/

/-- Apostrophe character (ASCII 39). -/
def apoChar : Char := Char.ofNat 39

/-- One-character string holding the apostrophe. -/
def apoStr : String := String.singleton apoChar

/-- Test for Python whitespace characters stripped by `str.strip()` and
matched by `\s` (ASCII subset). -/
def isPySpace (c : Char) : Bool :=
  c = ' ' ∨ c = '\t' ∨ c = '\n' ∨ c = '\r' ∨ c = '\x0b' ∨ c = '\x0c'

/-- Strip leading and trailing whitespace from a character list. -/
def pyStripList (l : List Char) : List Char :=
  ((l.dropWhile isPySpace).reverse.dropWhile isPySpace).reverse

/-- Model of Python `str.strip()`. -/
def pyStrip (s : String) : String := String.mk (pyStripList s.data)

/-- Model of Python `str.lower()` on one character (ASCII plus Latin-1 letters). -/
def pyLowerChar (c : Char) : Char :=
  if 'A' ≤ c ∧ c ≤ 'Z' then Char.ofNat (c.toNat + 32)
  else if 0xC0 ≤ c.toNat ∧ c.toNat ≤ 0xDE ∧ c.toNat ≠ 0xD7 then Char.ofNat (c.toNat + 32)
  else c

/-- Model of Python `str.upper()` on one character (ASCII plus Latin-1 letters). -/
def pyUpperChar (c : Char) : Char :=
  if 'a' ≤ c ∧ c ≤ 'z' then Char.ofNat (c.toNat - 32)
  else if 0xE0 ≤ c.toNat ∧ c.toNat ≤ 0xFE ∧ c.toNat ≠ 0xF7 then Char.ofNat (c.toNat - 32)
  else c

/-- Model of Python `str.lower()`. -/
def pyLower (s : String) : String := String.mk (s.data.map pyLowerChar)

/-- Model of Python `str.upper()`. -/
def pyUpper (s : String) : String := String.mk (s.data.map pyUpperChar)

/-- Model of `_norm` (student_bot.py line 164 and admin_bot.py line 102):
lowercase, then delete every character outside `[a-z0-9]`. -/
def pyNorm (s : String) : String :=
  String.mk ((pyLower s).data.filter fun c => ('a' ≤ c ∧ c ≤ 'z') ∨ ('0' ≤ c ∧ c ≤ '9'))

/-- Model of `re.sub(r"\s+", "", t)`: delete every whitespace character. -/
def removeWS (s : String) : String := String.mk (s.data.filter fun c => ¬ isPySpace c)

/-- Decide whether `n` occurs at the start of `h`. -/
def startsList : List Char → List Char → Bool
  | [], _ => true
  | _ :: _, [] => false
  | a :: n, b :: h => a = b && startsList n h

/-- Decide whether `n` occurs contiguously inside `h` (Python `n in h`). -/
def withinList (n : List Char) : (h : List Char) → Bool
  | [] => startsList n []
  | b :: h => startsList n (b :: h) || withinList n h

/-- Replace non-overlapping occurrences of a nonempty pattern, left to
right (Python `str.replace`; the bots only call it with one-character
patterns). -/
def replaceList (pat sub : List Char) : Nat → List Char → List Char
  | _, [] => []
  | 0, l => l
  | fuel + 1, c :: rest =>
    if pat ≠ [] ∧ startsList pat (c :: rest) then
      sub ++ replaceList pat sub fuel ((c :: rest).drop pat.length)
    else c :: replaceList pat sub fuel rest

/-- Model of Python `s.replace(pat, sub)` for nonempty patterns. -/
def pyReplace (s pat sub : String) : String :=
  String.mk (replaceList pat.data sub.data s.data.length s.data)

/-- Model of the Python substring test `needle in hay`. -/
def pyIn (needle hay : String) : Bool := withinList needle.data hay.data

/-- Spreadsheet cell values as returned by the Sheets API
(`UNFORMATTED_VALUE`): strings, integers, doubles, booleans, or empty.
Doubles are modelled by their exact integer value: every numeric cell the
bots handle is an integer-valued IEEE double, exact for magnitudes up to
2^53. -/
inductive PyVal where
  | str (s : String)
  | int (n : Int)
  | float (n : Int)
  | bool (b : Bool)
  | none
deriving DecidableEq

/-- Model of Python `str(value)` on cell values. -/
def pyStr : PyVal → String
  | .str s => s
  | .int n => toString n
  | .float n => toString n ++ ".0"
  | .bool b => if b then "True" else "False"
  | .none => "None"

/-- Model of Python truthiness (`if not value`) on cell values. -/
def pyTruthy : PyVal → Bool
  | .str s => s ≠ ""
  | .int n => n ≠ 0
  | .float n => n ≠ 0
  | .bool b => b
  | .none => false

/-- Model of `_to_bool` (student_bot.py lines 222-227): `True` and `1` map to
true, `False`, `0` and `None` map to false, anything else is compared against
the string `TRUE` after strip/upper. -/
def to_bool : PyVal → Bool
  | .bool b => b
  | .int n => if n = 1 then true else if n = 0 then false
              else pyUpper (pyStrip (toString n)) = "TRUE"
  | .float n => if n = 1 then true else if n = 0 then false
                else pyUpper (pyStrip (toString n ++ ".0")) = "TRUE"
  | .none => false
  | .str s => pyUpper (pyStrip s) = "TRUE"

/-- ASCII digit test. -/
def isAsciiDigit (c : Char) : Bool := 48 ≤ c.toNat ∧ c.toNat ≤ 57

/-- Decimal value of a digit list. -/
def digitsVal (l : List Char) : Nat := l.foldl (fun a c => a * 10 + (c.toNat - 48)) 0

/-- Valid continuation of a digit run with single underscores between digits
(Python `int()` literal grammar, ASCII digits). -/
def usRun : List Char → Bool
  | [] => true
  | '_' :: rest =>
    match rest with
    | c :: _ => isAsciiDigit c && usRun rest
    | [] => false
  | c :: rest => isAsciiDigit c && usRun rest

/-- Nonempty digit run, underscores allowed strictly between digits. -/
def digitsUS : List Char → Bool
  | [] => false
  | c :: rest => isAsciiDigit c && usRun rest

/-- Model of Python `int(s)` for ASCII decimal strings: optional sign, digits
with single underscores in between; surrounding whitespace allowed.
Returns `none` when `int()` would raise `ValueError`. -/
def pyToInt (s : String) : Option Int :=
  let l := pyStripList s.data
  match l with
  | '+' :: rest => if digitsUS rest then some ((digitsVal (rest.filter isAsciiDigit) : Int)) else Option.none
  | '-' :: rest => if digitsUS rest then some (-(digitsVal (rest.filter isAsciiDigit) : Int)) else Option.none
  | _ => if digitsUS l then some ((digitsVal (l.filter isAsciiDigit) : Int)) else Option.none

/-- Gregorian leap-year test. -/
def isLeap (y : Nat) : Bool := y % 4 = 0 ∧ (y % 100 ≠ 0 ∨ y % 400 = 0)

/-- Number of days in a month of the proleptic Gregorian calendar. -/
def daysInMonth (y m : Nat) : Nat :=
  if m = 2 then (if isLeap y then 29 else 28)
  else if m = 4 ∨ m = 6 ∨ m = 9 ∨ m = 11 then 30 else 31

/-- Day count of a civil date from the 1970-01-01 epoch
(standard days-from-civil algorithm, valid for years 1-9999). -/
def daysFromCivil (y m d : Nat) : Int :=
  let y' : Nat := if m ≤ 2 then y - 1 else y
  let era : Nat := y' / 400
  let yoe : Nat := y' - era * 400
  let mp : Nat := if m > 2 then m - 3 else m + 9
  let doy : Nat := (153 * mp + 2) / 5 + d - 1
  let doe : Nat := yoe * 365 + yoe / 4 - yoe / 100 + doy
  (era * 146097 + doe : Int) - 719468

/-- Serial day number of a civil date, counted from 1899-12-30 (the
spreadsheet epoch used by the reminder sweep). -/
def serialOfCivil (y m d : Nat) : Int := daysFromCivil y m d - daysFromCivil 1899 12 30

/-- Date validity as checked by `datetime`: year at least 1 and the day
within the month (month range and a positive day are enforced by the
field parsers). -/
def validDate (y m d : Nat) : Bool := 1 ≤ y ∧ 1 ≤ m ∧ m ≤ 12 ∧ 1 ≤ d ∧ d ≤ daysInMonth y m

/-- Parse a `%m` field as `strptime` does (`1[0-2]|0[1-9]|[1-9]`), returning
the month and the remaining characters. -/
def parseMonthField : List Char → Option (Nat × List Char)
  | a :: b :: rest =>
    if a = '1' ∧ '0' ≤ b ∧ b ≤ '2' then some (10 + (b.toNat - 48), rest)
    else if a = '0' ∧ '1' ≤ b ∧ b ≤ '9' then some (b.toNat - 48, rest)
    else if '1' ≤ a ∧ a ≤ '9' then some (a.toNat - 48, b :: rest)
    else Option.none
  | [a] => if '1' ≤ a ∧ a ≤ '9' then some (a.toNat - 48, ([] : List Char)) else Option.none
  | [] => Option.none

/-- Parse a `%d` field as `strptime` does (`3[01]|[12]\d|0[1-9]|[1-9]`),
returning the day and the remaining characters. -/
def parseDayField : List Char → Option (Nat × List Char)
  | a :: b :: rest =>
    if a = '3' ∧ ('0' ≤ b ∧ b ≤ '1') then some (30 + (b.toNat - 48), rest)
    else if ('1' ≤ a ∧ a ≤ '2') ∧ isAsciiDigit b then some ((a.toNat - 48) * 10 + (b.toNat - 48), rest)
    else if a = '0' ∧ '1' ≤ b ∧ b ≤ '9' then some (b.toNat - 48, rest)
    else if '1' ≤ a ∧ a ≤ '9' then some (a.toNat - 48, b :: rest)
    else Option.none
  | [a] => if '1' ≤ a ∧ a ≤ '9' then some (a.toNat - 48, ([] : List Char)) else Option.none
  | [] => Option.none

/-- Model of `datetime.strptime(s, "%Y-%m-%d")`: four-digit year, month and
day fields, entire string consumed, date validated.  Returns `(y, m, d)`. -/
def parseYMD (s : String) : Option (Nat × Nat × Nat) :=
  match s.data with
  | y1 :: y2 :: y3 :: y4 :: '-' :: rest =>
    if isAsciiDigit y1 && isAsciiDigit y2 && isAsciiDigit y3 && isAsciiDigit y4 then
      let y := digitsVal [y1, y2, y3, y4]
      match parseMonthField rest with
      | some (m, '-' :: rest2) =>
        match parseDayField rest2 with
        | some (d, []) => if validDate y m d then some (y, m, d) else Option.none
        | _ => Option.none
      | _ => Option.none
    else Option.none
  | _ => Option.none

/-- Model of `datetime.strptime(s, "%d/%m/%Y")`, entire string consumed,
date validated.  Returns `(y, m, d)`. -/
def parseDMY (s : String) : Option (Nat × Nat × Nat) :=
  match parseDayField s.data with
  | some (d, '/' :: rest) =>
    match parseMonthField rest with
    | some (m, '/' :: y1 :: y2 :: y3 :: y4 :: []) =>
      if isAsciiDigit y1 && isAsciiDigit y2 && isAsciiDigit y3 && isAsciiDigit y4 then
        let y := digitsVal [y1, y2, y3, y4]
        if validDate y m d then some (y, m, d) else Option.none
      else Option.none
    | _ => Option.none
  | _ => Option.none

/-- Left-pad a numeral with zeros to the given width. -/
def padZeros (width : Nat) (n : Nat) : String :=
  let s := toString n
  String.mk (List.replicate (width - s.length) '0') ++ s

/-- Model of `date.strftime('%Y-%m-%d')`. -/
def formatYMD (y m d : Nat) : String :=
  padZeros 4 y ++ "-" ++ padZeros 2 m ++ "-" ++ padZeros 2 d

/-- Model of `_col_letter` (student_bot.py lines 157-162) on the successor
value: `colLetterAux m` is the bijective base-26 numeral of `m`. -/
def colLetterAux : Nat → List Char
  | 0 => []
  | n + 1 => colLetterAux (n / 26) ++ [Char.ofNat (65 + n % 26)]
decreasing_by exact Nat.lt_succ_of_le (Nat.div_le_self n 26)

/-- Model of `_col_letter`: A1-style column name of a zero-based index. -/
def colLetter (idx : Nat) : String := String.mk (colLetterAux (idx + 1))

/-- Value of a string read as a bijective base-26 numeral over `A`-`Z`. -/
def bijBase26Val (l : List Char) : Nat := l.foldl (fun a c => a * 26 + (c.toNat - 64)) 0

/-- Model of `_chat_id` (student_bot.py lines 194-198): strip, drop a
trailing `.0`, convert all-digit strings (with optional leading minus signs)
to an integer.  (For a string with several leading minus signs the Python
`int()` call would raise; such ids do not occur and the model returns the
string unchanged.) -/
def chatId (value : PyVal) : PyVal :=
  let s0 := pyStrip (pyStr value)
  let s := if s0.data.reverse.take 2 = ['0', '.'] then String.mk (s0.data.dropLast.dropLast) else s0
  let core := s.data.dropWhile (fun c => c = '-')
  if core ≠ [] ∧ core.all isAsciiDigit then
    match pyToInt s with
    | some n => .int n
    | Option.none => .str s
  else .str s

/-- Model of `_id_str_norm` (student_bot.py lines 200-211 and admin_bot.py
lines 126-137): integers print directly, integer-valued floats print their
integer part, strings are stripped and lose a trailing `.0`. -/
def idStrNorm (value : PyVal) : String :=
  match value with
  | .int n => toString n
  | .bool b => if b then "True" else "False"
  | .float n => toString n
  | v =>
    let s := pyStrip (pyStr v)
    if s.data.reverse.take 2 = ['0', '.'] then String.mk (s.data.dropLast.dropLast) else s

/-- Model of `_safe_cell` (student_bot.py lines 154-155): fetch `row[idx]`
when `idx` is not the sentinel `-1` and is in range, else the default. -/
def safeCell (row : List PyVal) (idx : Int) (default : PyVal) : PyVal :=
  if idx = -1 then default
  else if h : 0 ≤ idx ∧ idx.toNat < row.length then row.get ⟨idx.toNat, h.2⟩
  else default

/-- Model of the A1 range string built by `update_sheet_cell`
(student_bot.py lines 213-220). -/
def updateSheetCellRange (sheetName : String) (colIdx : Nat) (rowIndex : Nat) : String :=
  sheetName ++ "!" ++ colLetter colIdx ++ toString rowIndex

/-- Model of the A1 range string written by the reminder sweep
(student_bot.py lines 449-452, 477-480, 493-496). -/
def sweepWriteRange (tableName : String) (colIdx : Nat) (rowNum : Nat) : String :=
  tableName ++ "!" ++ colLetter colIdx ++ toString rowNum

/-- Column-letter part of an A1 range: the run of capital letters after the
first exclamation mark. -/
def a1Letters (range : String) : String :=
  String.mk (((range.data.dropWhile fun c => c ≠ '!').tail).takeWhile fun c => 65 ≤ c.toNat ∧ c.toNat ≤ 90)

/- ### Supporting lemmas: characters of decimal numerals -/

theorem digitChar_isDigit (n : Nat) (h : n < 10) : isAsciiDigit (Nat.digitChar n) = true := by
  interval_cases n <;> decide

theorem toDigitsCore_digits (f : Nat) :
    ∀ (n : Nat) (acc : List Char), (∀ c ∈ acc, isAsciiDigit c = true) →
      ∀ c ∈ Nat.toDigitsCore 10 f n acc, isAsciiDigit c = true := by
  induction f with
  | zero => intro n acc hacc c hc; exact hacc c hc
  | succ f ih =>
    intro n acc hacc c hc
    rw [Nat.toDigitsCore] at hc
    by_cases h0 : n / 10 = 0
    · simp only [h0, if_pos rfl] at hc
      rcases List.mem_cons.mp hc with h | h
      · subst h; exact digitChar_isDigit _ (Nat.mod_lt _ (by omega))
      · exact hacc c h
    · simp only [h0, if_neg h0] at hc
      refine ih (n / 10) (Nat.digitChar (n % 10) :: acc) ?_ c hc
      intro d hd
      rcases List.mem_cons.mp hd with h | h
      · subst h; exact digitChar_isDigit _ (Nat.mod_lt _ (by omega))
      · exact hacc d h

theorem natRepr_digits (n : Nat) : ∀ c ∈ (Nat.repr n).data, isAsciiDigit c = true := by
  intro c hc
  have : (Nat.repr n).data = Nat.toDigitsCore 10 (n + 1) n [] := rfl
  rw [this] at hc
  exact toDigitsCore_digits (n + 1) n [] (by intro d hd; cases hd) c hc

theorem intRepr_chars (k : Int) :
    ∀ c ∈ (toString k).data, isAsciiDigit c = true ∨ c = '-' := by
  intro c hc
  cases k with
  | ofNat m =>
    left
    have : (toString (Int.ofNat m)).data = (Nat.repr m).data := rfl
    rw [this] at hc
    exact natRepr_digits m c hc
  | negSucc m =>
    have : (toString (Int.negSucc m)).data = '-' :: (Nat.repr (m + 1)).data := rfl
    rw [this] at hc
    rcases List.mem_cons.mp hc with h | h
    · right; exact h
    · left; exact natRepr_digits (m + 1) c h

theorem isPySpace_toNat_lt {c : Char} (h : isPySpace c = true) : c.toNat < 48 := by
  simp only [isPySpace, decide_eq_true_eq] at h
  rcases h with h | h | h | h | h | h <;> (subst h; decide)

theorem isAsciiDigit_not_space {c : Char} (h : isAsciiDigit c = true) : isPySpace c = false := by
  simp only [isAsciiDigit, decide_eq_true_eq] at h
  cases hsp : isPySpace c
  · rfl
  · exact absurd (isPySpace_toNat_lt hsp) (by omega)

theorem dash_not_space : isPySpace '-' = false := by decide

theorem dropWhile_all_neg {p : Char → Bool} {l : List Char}
    (h : ∀ c ∈ l, p c = false) : l.dropWhile p = l := by
  cases l with
  | nil => rfl
  | cons a t =>
    rw [List.dropWhile_cons_of_neg]
    rw [h a (List.mem_cons_self a t)]
    simp

theorem pyStripList_no_space {l : List Char}
    (h : ∀ c ∈ l, isPySpace c = false) : pyStripList l = l := by
  unfold pyStripList
  rw [dropWhile_all_neg h]
  rw [dropWhile_all_neg (by intro c hc; exact h c (List.mem_reverse.mp hc))]
  exact List.reverse_reverse l

theorem mk_data (s : String) : String.mk s.data = s := rfl

theorem pyStrip_intRepr (k : Int) : pyStrip (toString k) = toString k := by
  unfold pyStrip
  rw [pyStripList_no_space, mk_data]
  intro c hc
  rcases intRepr_chars k c hc with h | h
  · exact isAsciiDigit_not_space h
  · subst h; decide

/- ### Bijective base-26 column letters -/

theorem colLetterAux_zero : colLetterAux 0 = [] := by
  rw [colLetterAux]

theorem colLetterAux_succ (n : Nat) :
    colLetterAux (n + 1) = colLetterAux (n / 26) ++ [Char.ofNat (65 + n % 26)] := by
  rw [colLetterAux]

theorem colUpper_ofNat (r : Nat) (h : r < 26) :
    65 ≤ (Char.ofNat (65 + r)).toNat ∧ (Char.ofNat (65 + r)).toNat ≤ 90 := by
  interval_cases r <;> decide

theorem colLetterAux_chars (m : Nat) :
    ∀ c ∈ colLetterAux m, 65 ≤ c.toNat ∧ c.toNat ≤ 90 := by
  induction m using Nat.strong_induction_on with
  | _ m ih =>
    match m with
    | 0 => intro c hc; rw [colLetterAux_zero] at hc; cases hc
    | n + 1 =>
      intro c hc
      rw [colLetterAux_succ] at hc
      rcases List.mem_append.mp hc with h | h
      · exact ih (n / 26) (Nat.lt_succ_of_le (Nat.div_le_self n 26)) c h
      · rcases List.mem_singleton.mp h with rfl
        exact colUpper_ofNat (n % 26) (Nat.mod_lt n (by omega))

theorem colLetterAux_ne_nil (m : Nat) (hm : 0 < m) : colLetterAux m ≠ [] := by
  match m with
  | n + 1 => rw [colLetterAux_succ]; simp

theorem bijBase26Val_append (l : List Char) (c : Char) :
    bijBase26Val (l ++ [c]) = bijBase26Val l * 26 + (c.toNat - 64) := by
  unfold bijBase26Val
  rw [List.foldl_append]
  rfl

theorem colLetterAux_val (m : Nat) : bijBase26Val (colLetterAux m) = m := by
  induction m using Nat.strong_induction_on with
  | _ m ih =>
    match m with
    | 0 => rw [colLetterAux_zero]; rfl
    | n + 1 =>
      rw [colLetterAux_succ, bijBase26Val_append,
        ih (n / 26) (Nat.lt_succ_of_le (Nat.div_le_self n 26))]
      have h1 := colUpper_ofNat (n % 26) (Nat.mod_lt n (by omega))
      have h2 : (Char.ofNat (65 + n % 26)).toNat = 65 + n % 26 := by
        have : n % 26 < 26 := Nat.mod_lt n (by omega)
        interval_cases h : (n % 26) <;> decide
      rw [h2]
      omega

theorem bijBase26Val_pos (l : List Char) (hne : l ≠ [])
    (hch : ∀ c ∈ l, 65 ≤ c.toNat ∧ c.toNat ≤ 90) : 1 ≤ bijBase26Val l := by
  induction l using List.reverseRecOn with
  | nil => exact absurd rfl hne
  | append_singleton l c _ =>
    rw [bijBase26Val_append]
    have := hch c (List.mem_append.mpr (Or.inr (List.mem_singleton.mpr rfl)))
    omega

theorem char_ofNat_toNat_upper {c : Char} (_ : 65 ≤ c.toNat ∧ c.toNat ≤ 90) :
    Char.ofNat c.toNat = c := Char.ofNat_toNat c

theorem colLetterAux_of_val (l : List Char) (hne : l ≠ [])
    (hch : ∀ c ∈ l, 65 ≤ c.toNat ∧ c.toNat ≤ 90) :
    colLetterAux (bijBase26Val l) = l := by
  induction l using List.reverseRecOn with
  | nil => exact absurd rfl hne
  | append_singleton l c ih =>
    have hc := hch c (List.mem_append.mpr (Or.inr (List.mem_singleton.mpr rfl)))
    have hl : ∀ d ∈ l, 65 ≤ d.toNat ∧ d.toNat ≤ 90 := by
      intro d hd; exact hch d (List.mem_append.mpr (Or.inl hd))
    rw [bijBase26Val_append]
    set v := bijBase26Val l with hv
    set u := c.toNat - 64 with hu
    have hu1 : 1 ≤ u := by omega
    have hu26 : u ≤ 26 := by omega
    have hpos : 1 ≤ v * 26 + u := by omega
    obtain ⟨n, hn⟩ : ∃ n, v * 26 + u = n + 1 := ⟨v * 26 + u - 1, by omega⟩
    rw [hn, colLetterAux_succ]
    have hdiv : n / 26 = v := by omega
    have hmod : n % 26 = u - 1 := by omega
    rw [hdiv, hmod]
    have hcc : Char.ofNat (65 + (u - 1)) = c := by
      have : 65 + (u - 1) = c.toNat := by omega
      rw [this]
      exact char_ofNat_toNat_upper hc
    rw [hcc]
    rcases List.eq_nil_or_concat l with hnil | ⟨l', a, rfl⟩
    · subst hnil
      have hv0 : v = 0 := rfl
      rw [hv0, colLetterAux_zero]
    · have hvp : 1 ≤ v := bijBase26Val_pos _ (by simp) hl
      rw [ih (by simp) hl]

theorem toDigitsCore_ne_nil (f : Nat) :
    ∀ (n : Nat) (acc : List Char), acc ≠ [] → Nat.toDigitsCore 10 f n acc ≠ [] := by
  induction f with
  | zero => intro n acc h; exact h
  | succ f ih =>
    intro n acc h
    rw [Nat.toDigitsCore]
    by_cases h0 : n / 10 = 0
    · simp [h0]
    · simp only [h0, if_neg h0]
      exact ih (n / 10) _ (by simp)

theorem natRepr_head_digit (n : Nat) :
    ∃ d rest, (Nat.repr n).data = d :: rest ∧ isAsciiDigit d = true := by
  have hne : (Nat.repr n).data ≠ [] := by
    have : (Nat.repr n).data = Nat.toDigitsCore 10 (n + 1) n [] := rfl
    rw [this, Nat.toDigitsCore]
    by_cases h0 : n / 10 = 0
    · simp [h0]
    · simp only [h0, if_neg h0]
      exact toDigitsCore_ne_nil (n + 1 - 1) (n / 10) _ (by simp)
  cases hd : (Nat.repr n).data with
  | nil => exact absurd hd hne
  | cons d rest =>
    exact ⟨d, rest, rfl, natRepr_digits n d (by rw [hd]; exact List.mem_cons_self d rest)⟩

theorem dropWhile_to_bang (l rest : List Char) (h : '!' ∉ l) :
    (l ++ '!' :: rest).dropWhile (fun c => c ≠ '!') = '!' :: rest := by
  induction l with
  | nil => simp [List.dropWhile]
  | cons a t ih =>
    have ha : a ≠ '!' := by intro hc; exact h (hc ▸ List.mem_cons_self a t)
    rw [List.cons_append, List.dropWhile_cons_of_pos (by simp [ha])]
    exact ih (fun hm => h (List.mem_cons_of_mem a hm))

theorem takeWhile_append_all {p : Char → Bool} (l r : List Char)
    (hl : ∀ c ∈ l, p c = true) : (l ++ r).takeWhile p = l ++ r.takeWhile p := by
  induction l with
  | nil => rfl
  | cons a t ih =>
    rw [List.cons_append, List.takeWhile_cons_of_pos (hl a (List.mem_cons_self a t)),
      ih (fun c hc => hl c (List.mem_cons_of_mem a hc))]
    rfl

theorem dot_not_mem_intRepr (k : Int) : '.' ∉ (toString k).data := by
  intro hc
  rcases intRepr_chars k '.' hc with h | h
  · exact absurd h (by decide)
  · exact absurd h (by decide)

theorem intRepr_rev_take_ne (k : Int) : (toString k).data.reverse.take 2 ≠ ['0', '.'] := by
  intro h
  apply dot_not_mem_intRepr k
  rw [← List.mem_reverse]
  exact List.take_subset 2 _ (h ▸ (by decide : '.' ∈ (['0', '.'] : List Char)))

/-- C8: `_id_str_norm` maps the integer `k`, the integer-valued double `k`,
the decimal string of `k`, and that string with a trailing `.0` all to the
decimal string of `k`, so ids denoting the same integer compare equal after
normalization. -/
theorem C8_id_str_norm (k : Int) :
    idStrNorm (.int k) = toString k ∧
    idStrNorm (.float k) = toString k ∧
    idStrNorm (.str (toString k)) = toString k ∧
    idStrNorm (.str (toString k ++ ".0")) = toString k := by
  refine ⟨rfl, rfl, ?_, ?_⟩
  · show (let s := pyStrip (pyStr (.str (toString k)));
      if s.data.reverse.take 2 = ['0', '.'] then String.mk (s.data.dropLast.dropLast) else s) = toString k
    have hs : pyStrip (pyStr (.str (toString k))) = toString k := pyStrip_intRepr k
    rw [hs]
    simp only [if_neg (intRepr_rev_take_ne k)]
  · show (let s := pyStrip (pyStr (.str (toString k ++ ".0")));
      if s.data.reverse.take 2 = ['0', '.'] then String.mk (s.data.dropLast.dropLast) else s) = toString k
    have hdata : (toString k ++ ".0").data = (toString k).data ++ ['.', '0'] := rfl
    have hs : pyStrip (pyStr (.str (toString k ++ ".0"))) = toString k ++ ".0" := by
      show pyStrip (toString k ++ ".0") = toString k ++ ".0"
      unfold pyStrip
      rw [hdata, pyStripList_no_space, mk_data]
      · rfl
      · intro c hc
        rcases List.mem_append.mp hc with h | h
        · rcases intRepr_chars k c h with h1 | h1
          · exact isAsciiDigit_not_space h1
          · subst h1; decide
        · rcases List.mem_cons.mp h with h1 | h1
          · subst h1; decide
          · rcases List.mem_singleton.mp h1 with rfl; decide
    rw [hs]
    have hrev : (toString k ++ ".0").data.reverse.take 2 = ['0', '.'] := by
      rw [hdata]
      simp
    rw [if_pos hrev, hdata]
    have h1 : ((toString k).data ++ ['.', '0']).dropLast = (toString k).data ++ ['.'] := by
      have : (toString k).data ++ ['.', '0'] = ((toString k).data ++ ['.']) ++ ['0'] := by simp
      rw [this, List.dropLast_concat]
    rw [h1, List.dropLast_concat, mk_data]


/-- C10: `_col_letter n` is the unique nonempty bijective base-26 numeral
over the characters `A` (code 65) to `Z` (code 90) whose value is `n + 1`,
and the A1 ranges built by `update_sheet_cell` and by the reminder sweep
carry exactly that column name between the exclamation mark and the row
number. -/
theorem C10_col_letter_correct (n : Nat) :
    colLetter n ≠ "" ∧
    (∀ c ∈ (colLetter n).data, 65 ≤ c.toNat ∧ c.toNat ≤ 90) ∧
    bijBase26Val (colLetter n).data = n + 1 ∧
    (∀ s : String, s ≠ "" → (∀ c ∈ s.data, 65 ≤ c.toNat ∧ c.toNat ≤ 90) →
      bijBase26Val s.data = n + 1 → s = colLetter n) ∧
    (∀ sheet : String, ∀ rowIndex : Nat, '!' ∉ sheet.data →
      a1Letters (updateSheetCellRange sheet n rowIndex) = colLetter n ∧
      a1Letters (sweepWriteRange sheet n rowIndex) = colLetter n) := by
  have hdata : (colLetter n).data = colLetterAux (n + 1) := rfl
  refine ⟨?_, ?_, ?_, ?_, ?_⟩
  · intro h
    exact colLetterAux_ne_nil (n + 1) (by omega) (by rw [← hdata, h])
  · intro c hc
    exact colLetterAux_chars (n + 1) c (hdata ▸ hc)
  · rw [hdata]; exact colLetterAux_val (n + 1)
  · intro s hne hch hval
    have hd : s.data ≠ [] := by
      intro h
      apply hne
      rw [← mk_data s, h]
    have hback := colLetterAux_of_val s.data hd hch
    rw [hval] at hback
    rw [← mk_data s, ← hback]
    rfl
  · intro sheet rowIndex hsheet
    have key : a1Letters (sheet ++ "!" ++ colLetter n ++ toString rowIndex) = colLetter n := by
      unfold a1Letters
      have hsplit : (sheet ++ "!" ++ colLetter n ++ toString rowIndex).data
          = sheet.data ++ '!' :: ((colLetter n).data ++ (toString rowIndex).data) := by
        show sheet.data ++ "!".data ++ (colLetter n).data ++ (toString rowIndex).data
          = sheet.data ++ '!' :: ((colLetter n).data ++ (toString rowIndex).data)
        simp
      rw [hsplit, dropWhile_to_bang _ _ hsheet]
      show String.mk (((colLetter n).data ++ (toString rowIndex).data).takeWhile
        fun c => decide (65 ≤ c.toNat ∧ c.toNat ≤ 90)) = colLetter n
      rw [takeWhile_append_all]
      · obtain ⟨d, rest, hd, hdig⟩ := natRepr_head_digit rowIndex
        have hds : (toString rowIndex).data = d :: rest := hd
        have hneg : ¬ (decide (65 ≤ d.toNat ∧ d.toNat ≤ 90)) = true := by
          simp only [isAsciiDigit, decide_eq_true_eq] at hdig
          simp only [decide_eq_true_eq]
          omega
        rw [hds,
          @List.takeWhile_cons_of_neg Char (fun c => decide (65 ≤ c.toNat ∧ c.toNat ≤ 90)) d rest hneg,
          List.append_nil, mk_data]
      · intro c hc
        have := colLetterAux_chars (n + 1) c (hdata ▸ hc)
        simp only [decide_eq_true_eq]
        exact this
    exact ⟨key, key⟩

theorem colLetter_eight : colLetter 8 = "I" := by
  show String.mk (colLetterAux (8 + 1)) = "I"
  rw [colLetterAux_succ]
  have h1 : (8 : Nat) / 26 = 0 := by norm_num
  have h2 : (8 : Nat) % 26 = 8 := by norm_num
  rw [h1, h2, colLetterAux_zero]
  rfl

/-- Witness for C10 at a concrete column: index 8 addresses column `I` in a
range built for the `Students` sheet. -/
theorem C10_col_letter_correct_witness :
    a1Letters (updateSheetCellRange "Students" 8 2) = colLetter 8 ∧ colLetter 8 = "I" :=
  ⟨((C10_col_letter_correct 8).2.2.2.2 "Students" 2 (by decide)).1, colLetter_eight⟩

/- ### Header-alias resolution (`_header_index_alias`, both bots) -/

/-- First index (from `start`) of an element satisfying `p`, or `-1`:
the `for i, h in enumerate(...)` search loops of `_header_index_alias`. -/
def scanFirstAux (p : String → Bool) : Nat → List String → Int
  | _, [] => -1
  | i, h :: t => if p h then (i : Int) else scanFirstAux p (i + 1) t

/-- Last index (from `start`) of an element whose normalization is `t`, or
`-1`: the dict comprehension of `_header_index` keeps the last header on
normalization collisions. -/
def lastNormIdx (t : String) : Nat → List String → Int
  | _, [] => -1
  | i, h :: rest =>
    if lastNormIdx t (i + 1) rest ≠ -1 then lastNormIdx t (i + 1) rest
    else if pyNorm h = t then (i : Int) else -1

/-- Model of `_header_index` (student_bot.py lines 167-169): look the
normalized target up in the dict `{_norm(h): i}` built over the headers. -/
def headerIndex (headers : List String) (target : String) : Int :=
  lastNormIdx (pyNorm target) 0 headers

/-- First alias whose hit function does not return `-1`
(the `for al in aliases` loop of `_header_index_alias`). -/
def firstAliasHit (hit : String → Int) : List String → Option Int
  | [] => Option.none
  | al :: rest => let i := hit al; if i ≠ -1 then some i else firstAliasHit hit rest

/-- Substring test used by the heuristics: the normalized token occurs in
the normalized header. -/
def tokIn (tk h : String) : Bool := pyIn tk h

/-- Model of the `contains_any` phase of `_header_index_alias`:
first normalized header containing any token, `-1` otherwise; a falsy
`contains_any` (absent or empty) yields `-1`. -/
def anyPhase (hdrNorm : List String) (ca : Option (List String)) : Int :=
  match ca with
  | some (t0 :: ts) =>
    let toks := (t0 :: ts).map pyNorm
    scanFirstAux (fun h => toks.any fun tk => tokIn tk h) 0 hdrNorm
  | _ => -1

/-- Model of the substring phases of `_header_index_alias` (both bots,
student_bot.py lines 182-192 and admin_bot.py lines 114-124): a truthy
`contains_all` is tried first over normalized headers, then `contains_any`,
then `-1`. -/
def containsPhases (headers : List String) (ca cl : Option (List String)) : Int :=
  let hdrNorm := headers.map pyNorm
  match cl with
  | some (t0 :: ts) =>
    let toks := (t0 :: ts).map pyNorm
    let r := scanFirstAux (fun h => toks.all fun tk => tokIn tk h) 0 hdrNorm
    if r ≠ -1 then r else anyPhase hdrNorm ca
  | _ => anyPhase hdrNorm ca

/-- Model of `_header_index_alias` (student_bot.py lines 171-192): each
alias is first tried through `_header_index` (normalized equality), then
the substring phases run. -/
def headerIndexAlias (headers aliases : List String)
    (ca cl : Option (List String)) : Int :=
  match firstAliasHit (fun al => headerIndex headers al) aliases with
  | some i => i
  | Option.none => containsPhases headers ca cl

namespace AdminBot

/-- Model of `_header_index_alias` (admin_bot.py lines 105-124): each alias
is tried through `headers.index(al)` (literal equality, first occurrence),
then the same substring phases run. -/
def headerIndexAlias (headers aliases : List String)
    (ca cl : Option (List String)) : Int :=
  match firstAliasHit (fun al => scanFirstAux (fun h => h = al) 0 headers) aliases with
  | some i => i
  | Option.none => containsPhases headers ca cl

end AdminBot


theorem scanFirstAux_spec (p : String → Bool) (s : Nat) (l : List String) :
    (scanFirstAux p s l = -1 ∧ ∀ h ∈ l, p h = false) ∨
    (∃ j h, scanFirstAux p s l = ((s + j : Nat) : Int) ∧ l.get? j = some h ∧ p h = true ∧
      ∀ j' h', j' < j → l.get? j' = some h' → p h' = false) := by
  induction l generalizing s with
  | nil => exact Or.inl ⟨rfl, by intro h hh; cases hh⟩
  | cons a t ih =>
    cases hp : p a with
    | true =>
      right
      refine ⟨0, a, ?_, rfl, hp, ?_⟩
      · show scanFirstAux p s (a :: t) = ((s + 0 : Nat) : Int)
        simp [scanFirstAux, hp]
      · intro j' h' hlt _; omega
    | false =>
      have hrec : scanFirstAux p s (a :: t) = scanFirstAux p (s + 1) t := by
        simp [scanFirstAux, hp]
      rcases ih (s + 1) with ⟨hval, hall⟩ | ⟨j, h, hval, hget, hph, hmin⟩
      · left
        refine ⟨by rw [hrec]; exact hval, ?_⟩
        intro h hh
        rcases List.mem_cons.mp hh with rfl | hh
        · exact hp
        · exact hall h hh
      · right
        refine ⟨j + 1, h, ?_, hget, hph, ?_⟩
        · rw [hrec, hval]; congr 1; omega
        · intro j' h' hlt hget'
          match j', hget' with
          | 0, hget' =>
            have ha : h' = a := by injection hget' with h0; exact h0.symm
            subst ha
            exact hp
          | Nat.succ j'', hget' => exact hmin j'' h' (by omega) hget'

theorem lastNormIdx_spec (t : String) (s : Nat) (l : List String) :
    (lastNormIdx t s l = -1 ∧ ∀ h ∈ l, pyNorm h ≠ t) ∨
    (∃ j h, lastNormIdx t s l = ((s + j : Nat) : Int) ∧ l.get? j = some h ∧ pyNorm h = t ∧
      ∀ j' h', j < j' → l.get? j' = some h' → pyNorm h' ≠ t) := by
  induction l generalizing s with
  | nil => exact Or.inl ⟨rfl, by intro h hh; cases hh⟩
  | cons a l ih =>
    rcases ih (s + 1) with ⟨hval, hall⟩ | ⟨j, h, hval, hget, hnorm, hmax⟩
    · by_cases hna : pyNorm a = t
      · right
        refine ⟨0, a, ?_, rfl, hna, ?_⟩
        · show lastNormIdx t s (a :: l) = ((s + 0 : Nat) : Int)
          simp [lastNormIdx, hval, hna]
        · intro j' h' hlt hget'
          match j', hget' with
          | Nat.succ j'', hget' => exact hall h' (List.get?_mem hget')
      · left
        constructor
        · simp [lastNormIdx, hval, hna]
        · intro h hh
          rcases List.mem_cons.mp hh with rfl | hh
          · exact hna
          · exact hall h hh
    · right
      refine ⟨j + 1, h, ?_, hget, hnorm, ?_⟩
      · have hne : lastNormIdx t (s + 1) l ≠ -1 := by
          rw [hval]; omega
        show lastNormIdx t s (a :: l) = ((s + (j + 1) : Nat) : Int)
        simp only [lastNormIdx, if_pos hne, hval]
        omega
      · intro j' h' hlt hget'
        match j', hget' with
        | Nat.succ j'', hget' => exact hmax j'' h' (by omega) hget'

theorem firstAliasHit_spec (hit : String → Int) (aliases : List String) :
    (firstAliasHit hit aliases = Option.none ∧ ∀ al ∈ aliases, hit al = -1) ∨
    (∃ k al, aliases.get? k = some al ∧ hit al ≠ -1 ∧
      firstAliasHit hit aliases = some (hit al) ∧
      ∀ k' al', k' < k → aliases.get? k' = some al' → hit al' = -1) := by
  induction aliases with
  | nil => exact Or.inl ⟨rfl, by intro al h; cases h⟩
  | cons a t ih =>
    by_cases ha : hit a = -1
    · have hrec : firstAliasHit hit (a :: t) = firstAliasHit hit t := by
        simp [firstAliasHit, ha]
      rcases ih with ⟨hval, hall⟩ | ⟨k, al, hget, hne, hval, hmin⟩
      · left
        refine ⟨by rw [hrec]; exact hval, ?_⟩
        intro al h
        rcases List.mem_cons.mp h with rfl | h
        · exact ha
        · exact hall al h
      · right
        refine ⟨k + 1, al, hget, hne, by rw [hrec]; exact hval, ?_⟩
        intro k' al' hlt hget'
        match k', hget' with
        | 0, hget' =>
          have : al' = a := by injection hget' with h0; exact h0.symm
          subst this; exact ha
        | Nat.succ k'', hget' => exact hmin k'' al' (by omega) hget'
    · right
      refine ⟨0, a, rfl, ha, ?_, ?_⟩
      · simp [firstAliasHit, ha]
      · intro k' al' hlt _; omega

/-- Headers whose normalization contains every token (normalized). -/
def allToksIn (toks : List String) (h : String) : Bool :=
  toks.all fun tk => tokIn (pyNorm tk) (pyNorm h)

/-- Headers whose normalization contains at least one token (normalized). -/
def anyTokIn (toks : List String) (h : String) : Bool :=
  toks.any fun tk => tokIn (pyNorm tk) (pyNorm h)

theorem exactHit_spec (headers : List String) (al : String) :
    (scanFirstAux (fun h => h = al) 0 headers = -1 ∧ al ∉ headers) ∨
    (∃ j : Nat, scanFirstAux (fun h => h = al) 0 headers = (j : Int) ∧
      headers.get? j = some al ∧
      ∀ (j' : Nat) (h' : String), j' < j → headers.get? j' = some h' → h' ≠ al) := by
  rcases scanFirstAux_spec (fun h => h = al) 0 headers with ⟨hval, hall⟩ | ⟨j, h, hval, hget, hph, hmin⟩
  · left
    refine ⟨hval, fun hmem => ?_⟩
    have := hall al hmem
    simp at this
  · right
    have hha : h = al := by simpa using hph
    subst hha
    refine ⟨j, by simpa using hval, hget, ?_⟩
    intro j' h' hlt hget' heq
    have := hmin j' h' hlt hget'
    simp [heq] at this

theorem normHit_spec (headers : List String) (al : String) :
    (headerIndex headers al = -1 ∧ ∀ h ∈ headers, pyNorm h ≠ pyNorm al) ∨
    (∃ (j : Nat) (h : String), headerIndex headers al = (j : Int) ∧ headers.get? j = some h ∧
      pyNorm h = pyNorm al ∧
      ∀ (j' : Nat) (h' : String), j < j' → headers.get? j' = some h' → pyNorm h' ≠ pyNorm al) := by
  rcases lastNormIdx_spec (pyNorm al) 0 headers with ⟨hval, hall⟩ | ⟨j, h, hval, hget, hnorm, hmax⟩
  · exact Or.inl ⟨hval, hall⟩
  · exact Or.inr ⟨j, h, by simpa using hval, hget, hnorm, hmax⟩

theorem adminHit_of_mem {headers : List String} {al : String} (h : al ∈ headers) :
    scanFirstAux (fun h => h = al) 0 headers ≠ -1 := by
  rcases exactHit_spec headers al with ⟨_, hnot⟩ | ⟨j, hval, _, _⟩
  · exact absurd h hnot
  · rw [hval]; omega

theorem adminHit_of_not_mem {headers : List String} {al : String} (h : al ∉ headers) :
    scanFirstAux (fun h => h = al) 0 headers = -1 := by
  rcases exactHit_spec headers al with ⟨hval, _⟩ | ⟨j, _, hget, _⟩
  · exact hval
  · exact absurd (List.get?_mem hget) h

theorem normHit_of_match {headers : List String} {al : String}
    (h : ∃ h ∈ headers, pyNorm h = pyNorm al) : headerIndex headers al ≠ -1 := by
  rcases normHit_spec headers al with ⟨_, hnot⟩ | ⟨j, hh, hval, _, _⟩
  · obtain ⟨h0, hmem, heq⟩ := h
    exact absurd heq (hnot h0 hmem)
  · rw [hval]; omega

theorem normHit_of_no_match {headers : List String} {al : String}
    (h : ∀ h ∈ headers, pyNorm h ≠ pyNorm al) : headerIndex headers al = -1 := by
  rcases normHit_spec headers al with ⟨hval, _⟩ | ⟨j, hh, _, hget, hnorm, _⟩
  · exact hval
  · exact absurd hnorm (h hh (List.get?_mem hget))

/-- C3 (counterexample to the claim as stated): in `student_bot.py` the
alias `End Date` matches the header `End_Date` even though no alias equals a
header literally, so with no substring tokens the resolver returns `0`, not
the `-1` the claim requires when nothing matches exactly. -/
theorem C3_counterexample_exact_match :
    headerIndexAlias ["End_Date"] ["End Date"] Option.none Option.none = 0 ∧
    "End Date" ≠ "End_Date" ∧ ((0 : Int) ≠ -1) := by
  refine ⟨by decide, by decide, by decide⟩

/-- C3 (amended): phase one of `_header_index_alias` differs per bot: the
admin bot returns the index of the first header literally equal to the
first alias that occurs among the headers, while the student bot matches
aliases on normalized names and returns the index of the last header whose
normalization agrees with the first alias that matches.  Only when no alias
matches (in the respective sense) do the substring heuristics run over
normalized headers: first the first header containing all `contains_all`
tokens, then the first header containing any `contains_any` token, and `-1`
when nothing matches (absent or empty token lists are skipped). -/
theorem C3_header_alias_characterization (headers aliases : List String)
    (ca cl : Option (List String)) :
    (∀ (k : Nat) (al : String), aliases.get? k = some al → al ∈ headers →
      (∀ (k' : Nat) (al' : String), k' < k → aliases.get? k' = some al' → al' ∉ headers) →
      ∃ j : Nat, AdminBot.headerIndexAlias headers aliases ca cl = (j : Int) ∧
        headers.get? j = some al ∧
        ∀ (j' : Nat) (h' : String), j' < j → headers.get? j' = some h' → h' ≠ al) ∧
    ((∀ al ∈ aliases, al ∉ headers) →
      AdminBot.headerIndexAlias headers aliases ca cl = containsPhases headers ca cl) ∧
    (∀ (k : Nat) (al : String), aliases.get? k = some al →
      (∃ h ∈ headers, pyNorm h = pyNorm al) →
      (∀ (k' : Nat) (al' : String), k' < k → aliases.get? k' = some al' →
        ∀ h ∈ headers, pyNorm h ≠ pyNorm al') →
      ∃ (j : Nat) (h : String), headerIndexAlias headers aliases ca cl = (j : Int) ∧
        headers.get? j = some h ∧ pyNorm h = pyNorm al ∧
        ∀ (j' : Nat) (h' : String), j < j' → headers.get? j' = some h' →
          pyNorm h' ≠ pyNorm al) ∧
    ((∀ al ∈ aliases, ∀ h ∈ headers, pyNorm h ≠ pyNorm al) →
      headerIndexAlias headers aliases ca cl = containsPhases headers ca cl) ∧
    (∀ t0 ts, cl = some (t0 :: ts) →
      (∃ (j : Nat) (h : String), headers.get? j = some h ∧ allToksIn (t0 :: ts) h = true ∧
        containsPhases headers ca cl = (j : Int) ∧
        ∀ (j' : Nat) (h' : String), j' < j → headers.get? j' = some h' →
          allToksIn (t0 :: ts) h' = false) ∨
      ((∀ h ∈ headers, allToksIn (t0 :: ts) h = false) ∧
        containsPhases headers ca cl = anyPhase (headers.map pyNorm) ca)) ∧
    (∀ t0 ts, ca = some (t0 :: ts) →
      (∃ (j : Nat) (h : String), headers.get? j = some h ∧ anyTokIn (t0 :: ts) h = true ∧
        anyPhase (headers.map pyNorm) ca = (j : Int) ∧
        ∀ (j' : Nat) (h' : String), j' < j → headers.get? j' = some h' →
          anyTokIn (t0 :: ts) h' = false) ∨
      ((∀ h ∈ headers, anyTokIn (t0 :: ts) h = false) ∧
        anyPhase (headers.map pyNorm) ca = -1)) ∧
    ((cl = Option.none ∨ cl = some []) →
      containsPhases headers ca cl = anyPhase (headers.map pyNorm) ca) ∧
    ((ca = Option.none ∨ ca = some []) → anyPhase (headers.map pyNorm) ca = -1) := by
  refine ⟨?_, ?_, ?_, ?_, ?_, ?_, ?_, ?_⟩
  · -- admin phase 1
    intro k al hk hmem hprev
    rcases firstAliasHit_spec (fun al => scanFirstAux (fun h => h = al) 0 headers) aliases with
      ⟨hval, hall⟩ | ⟨k1, al1, hget1, hne1, hval1, hmin1⟩
    · exact absurd (hall al (List.get?_mem hk)) (adminHit_of_mem hmem)
    · have hk1 : k1 = k := by
        rcases Nat.lt_trichotomy k1 k with hlt | heq | hgt
        · exfalso
          apply hne1
          exact adminHit_of_not_mem (hprev k1 al1 hlt hget1)
        · exact heq
        · exfalso
          exact absurd (hmin1 k al hgt hk) (adminHit_of_mem hmem)
      subst hk1
      have hal1 : al1 = al := by rw [hget1] at hk; injection hk
      subst hal1
      rcases exactHit_spec headers al1 with ⟨_, hnot⟩ | ⟨j, hjval, hjget, hjmin⟩
      · exact absurd hmem hnot
      · refine ⟨j, ?_, hjget, hjmin⟩
        simp only [AdminBot.headerIndexAlias, hval1]
        exact hjval
  · -- admin fallback
    intro hnone
    rcases firstAliasHit_spec (fun al => scanFirstAux (fun h => h = al) 0 headers) aliases with
      ⟨hval, _⟩ | ⟨k1, al1, hget1, hne1, _, _⟩
    · simp only [AdminBot.headerIndexAlias, hval]
    · exact absurd (adminHit_of_not_mem (hnone al1 (List.get?_mem hget1))) hne1
  · -- student phase 1
    intro k al hk hmatch hprev
    rcases firstAliasHit_spec (fun al => headerIndex headers al) aliases with
      ⟨hval, hall⟩ | ⟨k1, al1, hget1, hne1, hval1, hmin1⟩
    · exact absurd (hall al (List.get?_mem hk)) (normHit_of_match hmatch)
    · have hk1 : k1 = k := by
        rcases Nat.lt_trichotomy k1 k with hlt | heq | hgt
        · exact absurd (normHit_of_no_match (hprev k1 al1 hlt hget1)) hne1
        · exact heq
        · exact absurd (hmin1 k al hgt hk) (normHit_of_match hmatch)
      subst hk1
      have hal1 : al1 = al := by rw [hget1] at hk; injection hk
      subst hal1
      rcases normHit_spec headers al1 with ⟨_, hnot⟩ | ⟨j, h, hjval, hjget, hjnorm, hjmax⟩
      · obtain ⟨h0, hmem0, heq0⟩ := hmatch
        exact absurd heq0 (hnot h0 hmem0)
      · refine ⟨j, h, ?_, hjget, hjnorm, hjmax⟩
        simp only [headerIndexAlias, hval1]
        exact hjval
  · -- student fallback
    intro hnone
    rcases firstAliasHit_spec (fun al => headerIndex headers al) aliases with
      ⟨hval, _⟩ | ⟨k1, al1, hget1, hne1, _, _⟩
    · simp only [headerIndexAlias, hval]
    · exact absurd (normHit_of_no_match (hnone al1 (List.get?_mem hget1))) hne1
  · -- contains_all phase
    intro t0 ts hcl
    subst hcl
    rcases scanFirstAux_spec
        (fun h => ((t0 :: ts).map pyNorm).all fun tk => tokIn tk h) 0 (headers.map pyNorm) with
      ⟨hval, hall⟩ | ⟨j, hn, hval, hget, hph, hmin⟩
    · right
      constructor
      · intro h hh
        have := hall (pyNorm h) (List.mem_map_of_mem pyNorm hh)
        rw [List.all_map] at this
        exact this
      · simp only [containsPhases, hval]
        simp
    · left
      rw [List.get?_map] at hget
      obtain ⟨h, hh, rfl⟩ := Option.map_eq_some'.mp hget
      refine ⟨j, h, hh, ?_, ?_, ?_⟩
      · rw [List.all_map] at hph; exact hph
      · have hne : scanFirstAux
            (fun h => ((t0 :: ts).map pyNorm).all fun tk => tokIn tk h) 0 (headers.map pyNorm)
            ≠ -1 := by rw [hval]; omega
        simp only [containsPhases, if_pos hne, hval]
        omega
      · intro j' h' hlt hget'
        have hm := hmin j' (pyNorm h') hlt (by rw [List.get?_map, hget']; rfl)
        rw [List.all_map] at hm
        exact hm
  · -- contains_any phase
    intro t0 ts hca
    subst hca
    rcases scanFirstAux_spec
        (fun h => ((t0 :: ts).map pyNorm).any fun tk => tokIn tk h) 0 (headers.map pyNorm) with
      ⟨hval, hall⟩ | ⟨j, hn, hval, hget, hph, hmin⟩
    · right
      constructor
      · intro h hh
        have := hall (pyNorm h) (List.mem_map_of_mem pyNorm hh)
        rw [List.any_map] at this
        exact this
      · simp only [anyPhase, hval]
    · left
      rw [List.get?_map] at hget
      obtain ⟨h, hh, rfl⟩ := Option.map_eq_some'.mp hget
      refine ⟨j, h, hh, ?_, ?_, ?_⟩
      · rw [List.any_map] at hph; exact hph
      · simp only [anyPhase, hval]
        omega
      · intro j' h' hlt hget'
        have hm := hmin j' (pyNorm h') hlt (by rw [List.get?_map, hget']; rfl)
        rw [List.any_map] at hm
        exact hm
  · -- contains_all falsy
    rintro (rfl | rfl) <;> rfl
  · -- contains_any falsy
    rintro (rfl | rfl) <;> rfl

/-- Witness for the amended C3: on headers `Phone, ID` with the single alias
`ID`, the admin resolver returns the literal first match at index 1. -/
theorem C3_header_alias_witness :
    ∃ j : Nat, AdminBot.headerIndexAlias ["Phone", "ID"] ["ID"] Option.none Option.none = (j : Int) ∧
      ["Phone", "ID"].get? j = some "ID" ∧
      ∀ (j' : Nat) (h' : String), j' < j → ["Phone", "ID"].get? j' = some h' → h' ≠ "ID" :=
  (C3_header_alias_characterization ["Phone", "ID"] ["ID"] Option.none Option.none).1
    0 "ID" rfl (by decide) (by intro k' al' hlt; omega)

/- ### Reminder sweep (`check_subscriptions_and_send_reminders`) -/

/-- Kind of Telegram message that the sweep can attempt to send; used to
index the per-row send-success oracle. -/
inductive SendKind where
  | expired
  | ten
  | three
deriving DecidableEq

/-- Observable effects of one reminder sweep: cell writes (column index,
sheet row number, raw value) and the three kinds of Telegram messages,
tagged with the sheet row they were computed from. -/
inductive SweepEffect where
  | writeCell (colIdx : Int) (rowNum : Nat) (value : String)
  | sendExpired (rowNum : Nat) (chat : PyVal)
  | sendTen (rowNum : Nat) (chat : PyVal) (endSerial daysLeft : Int)
  | sendThree (rowNum : Nat) (chat : PyVal) (daysLeft : Int)
deriving DecidableEq

/-- Sheet row a sweep effect belongs to. -/
def rowNumOf : SweepEffect → Nat
  | .writeCell _ rn _ => rn
  | .sendExpired rn _ => rn
  | .sendTen rn _ _ _ => rn
  | .sendThree rn _ _ => rn

/-- Model of the sweep's `idx_exact` helper (student_bot.py lines 409-413):
`headers.index(name)` with `-1` on `ValueError`. -/
def idxExact (headers : List String) (name : String) : Int :=
  scanFirstAux (fun h => h = name) 0 headers

/-- End-date cell to spreadsheet serial day (student_bot.py lines 435-438):
numeric cells are serial day counts from 1899-12-30 (`int(True)` is 1);
other cells are parsed with `strptime(str(v).strip(), "%Y-%m-%d")`, whose
`ValueError` aborts the whole sweep (`Option.none`). -/
def rowEndSerial : PyVal → Option Int
  | .int n => some n
  | .float n => some n
  | .bool b => some (if b then 1 else 0)
  | v => (parseYMD (pyStrip (pyStr v))).map fun t => serialOfCivil t.1 t.2.1 t.2.2

/-- Subscription status string of a row (student_bot.py line 440). -/
def subStatusOf (row : List PyVal) (subIdx : Int) : String :=
  pyUpper (pyStrip (pyStr (safeCell row subIdx (.str ""))))

/-- Reminder-flag read (student_bot.py lines 443-444): `_to_bool` of the
cell when the column exists, `False` otherwise. -/
def reminderFlag (row : List PyVal) (idx : Int) : Bool :=
  if idx ≠ -1 then to_bool (safeCell row idx (.bool false)) else false

/-- The `raw_id in ("", None)` test (student_bot.py line 427). -/
def idMissing (v : PyVal) : Bool := v = .str "" ∨ v = .none

/-- Model of one iteration of the sweep loop (student_bot.py lines
425-501) over the row at sheet row number `rn`.  `Option.none` means the
iteration raised (unparseable string end date), aborting the sweep. -/
def processRow (idIdx endIdx subIdx tenIdx threeIdx : Int) (today : Int)
    (sendOk : Nat → SendKind → Bool) (rn : Nat) (row : List PyVal) :
    Option (List SweepEffect) :=
  let raw_id := safeCell row idIdx (.str "")
  if idMissing raw_id then some []
  else
    let sid := chatId raw_id
    let endv := safeCell row endIdx (.str "")
    if pyTruthy endv = false then some []
    else
      match rowEndSerial endv with
      | Option.none => Option.none
      | some endDt =>
        let subStatus := subStatusOf row subIdx
        let daysLeft := endDt - today
        let tenSent := reminderFlag row tenIdx
        let threeSent := reminderFlag row threeIdx
        if today > endDt then
          some (if subStatus = "TRUE" then
              .writeCell subIdx rn "FALSE" ::
                (if sendOk rn .expired then [.sendExpired rn sid] else [])
            else [])
        else if subStatus ≠ "TRUE" then some []
        else
          let e10 := if 2 ≤ daysLeft ∧ daysLeft ≤ 10 ∧ tenSent = false ∧ tenIdx ≠ -1 then
              (if sendOk rn .ten then
                [.sendTen rn sid endDt daysLeft, .writeCell tenIdx rn "TRUE"]
              else []) else []
          let e3 := if 0 ≤ daysLeft ∧ daysLeft ≤ 3 ∧ threeSent = false ∧ threeIdx ≠ -1 then
              (if sendOk rn .three then
                [.sendThree rn sid daysLeft, .writeCell threeIdx rn "TRUE"]
              else []) else []
          some (e10 ++ e3)

/-- Fold the per-row step over the data rows, starting at sheet row 2;
an aborting row ends the sweep, keeping the effects of earlier rows. -/
def sweepAux (f : Nat → List PyVal → Option (List SweepEffect)) :
    Nat → List (List PyVal) → List SweepEffect
  | _, [] => []
  | rn, row :: rest =>
    match f rn row with
    | Option.none => []
    | some effs => effs ++ sweepAux f (rn + 1) rest

/-- Header lookup for the sweep's `ID` column (student_bot.py line 415). -/
def sweepIdIdx (headers : List String) : Int := idxExact headers "ID"

/-- Header lookup for the sweep's end-date column (student_bot.py line 416). -/
def sweepEndIdx (headers : List String) : Int :=
  headerIndexAlias headers ["End_Date", "End Date"] Option.none (some ["end", "date"])

/-- Header lookup for the sweep's `Subscription` column (line 417). -/
def sweepSubIdx (headers : List String) : Int := idxExact headers "Subscription"

/-- Header lookup for the sweep's `10DaysReminder` column (line 418). -/
def sweepTenIdx (headers : List String) : Int := idxExact headers "10DaysReminder"

/-- Header lookup for the sweep's `3DaysReminder` column (line 419). -/
def sweepThreeIdx (headers : List String) : Int := idxExact headers "3DaysReminder"

/-- Per-row step of the sweep with the column indices resolved from the
header row. -/
def sweepRow (headers : List String) (today : Int) (sendOk : Nat → SendKind → Bool)
    (rn : Nat) (row : List PyVal) : Option (List SweepEffect) :=
  processRow (sweepIdIdx headers) (sweepEndIdx headers) (sweepSubIdx headers)
    (sweepTenIdx headers) (sweepThreeIdx headers) today sendOk rn row

/-- Model of `check_subscriptions_and_send_reminders` (student_bot.py lines
396-501): resolve columns from the header row, give up unless the `ID`,
end-date and `Subscription` columns exist, then process every data row
(sheet rows 2, 3, ...). -/
def check_subscriptions_and_send_reminders (headers : List String)
    (dataRows : List (List PyVal)) (today : Int)
    (sendOk : Nat → SendKind → Bool) : List SweepEffect :=
  if sweepIdIdx headers = -1 ∨ sweepEndIdx headers = -1 ∨ sweepSubIdx headers = -1 then []
  else sweepAux (sweepRow headers today sendOk) 2 dataRows

theorem processRow_rowNum {idIdx endIdx subIdx tenIdx threeIdx : Int} {today : Int}
    {sendOk : Nat → SendKind → Bool} {rn : Nat} {row : List PyVal} {effs : List SweepEffect}
    (h : processRow idIdx endIdx subIdx tenIdx threeIdx today sendOk rn row = some effs) :
    ∀ e ∈ effs, rowNumOf e = rn := by
  intro e he
  simp only [processRow] at h
  split at h
  · simp only [Option.some.injEq] at h; subst h; cases he
  · split at h
    · simp only [Option.some.injEq] at h; subst h; cases he
    · split at h
      · cases h
      · split at h
        · -- expired branch
          simp only [Option.some.injEq] at h
          subst h
          split at he
          · rcases List.mem_cons.mp he with rfl | he2
            · rfl
            · split at he2
              · rcases List.mem_singleton.mp he2 with rfl; rfl
              · cases he2
          · cases he
        · split at h
          · simp only [Option.some.injEq] at h; subst h; cases he
          · -- threshold branch
            simp only [Option.some.injEq] at h
            subst h
            rcases List.mem_append.mp he with h10 | h3
            · split at h10
              · split at h10
                · rcases List.mem_cons.mp h10 with rfl | h10b
                  · rfl
                  · rcases List.mem_singleton.mp h10b with rfl; rfl
                · cases h10
              · cases h10
            · split at h3
              · split at h3
                · rcases List.mem_cons.mp h3 with rfl | h3b
                  · rfl
                  · rcases List.mem_singleton.mp h3b with rfl; rfl
                · cases h3
              · cases h3

theorem processRow_sendTen {idIdx endIdx subIdx tenIdx threeIdx : Int} {today : Int}
    {sendOk : Nat → SendKind → Bool} {rn : Nat} {row : List PyVal} {effs : List SweepEffect}
    (h : processRow idIdx endIdx subIdx tenIdx threeIdx today sendOk rn row = some effs)
    {rn' : Nat} {chat : PyVal} {e d : Int} (he : SweepEffect.sendTen rn' chat e d ∈ effs) :
    rn' = rn ∧ chat = chatId (safeCell row idIdx (.str "")) ∧
    rowEndSerial (safeCell row endIdx (.str "")) = some e ∧ d = e - today ∧
    ¬ today > e ∧ subStatusOf row subIdx = "TRUE" ∧
    2 ≤ d ∧ d ≤ 10 ∧ reminderFlag row tenIdx = false ∧ tenIdx ≠ -1 ∧
    sendOk rn .ten = true ∧ SweepEffect.writeCell tenIdx rn "TRUE" ∈ effs := by
  simp only [processRow] at h
  split at h
  · simp only [Option.some.injEq] at h; subst h; cases he
  · split at h
    · simp only [Option.some.injEq] at h; subst h; cases he
    · rename_i hidm hendv
      split at h
      · cases h
      · rename_i endDt hser
        split at h
        · -- expired branch: no sendTen
          exfalso
          simp only [Option.some.injEq] at h
          subst h
          split at he
          · rcases List.mem_cons.mp he with hcon | he2
            · cases hcon
            · split at he2
              · rcases List.mem_singleton.mp he2 with hcon; cases hcon
              · cases he2
          · cases he
        · rename_i hnotexp
          split at h
          · simp only [Option.some.injEq] at h; subst h; cases he
          · rename_i hsub
            simp only [Option.some.injEq] at h
            subst h
            rcases List.mem_append.mp he with h10 | h3
            · split at h10
              · rename_i hcond
                split at h10
                · rename_i hsend
                  rcases List.mem_cons.mp h10 with heq | h10b
                  · injection heq with e1 e2 e3 e4
                    subst e1; subst e2; subst e3; subst e4
                    refine ⟨rfl, rfl, hser, rfl, hnotexp, ?_, hcond.1, hcond.2.1, hcond.2.2.1, hcond.2.2.2, hsend, ?_⟩
                    · by_contra hs
                      exact hsub hs
                    · exact List.mem_append.mpr (Or.inl (by
                        rw [if_pos hcond, if_pos hsend]
                        exact List.mem_cons_of_mem _ (List.mem_singleton.mpr rfl)))
                  · rcases List.mem_singleton.mp h10b with hcon; cases hcon
                · cases h10
              · cases h10
            · exfalso
              split at h3
              · split at h3
                · rcases List.mem_cons.mp h3 with hcon | h3b
                  · cases hcon
                  · rcases List.mem_singleton.mp h3b with hcon; cases hcon
                · cases h3
              · cases h3

theorem processRow_sendThree {idIdx endIdx subIdx tenIdx threeIdx : Int} {today : Int}
    {sendOk : Nat → SendKind → Bool} {rn : Nat} {row : List PyVal} {effs : List SweepEffect}
    (h : processRow idIdx endIdx subIdx tenIdx threeIdx today sendOk rn row = some effs)
    {rn' : Nat} {chat : PyVal} {d : Int} (he : SweepEffect.sendThree rn' chat d ∈ effs) :
    rn' = rn ∧ chat = chatId (safeCell row idIdx (.str "")) ∧
    (∃ e, rowEndSerial (safeCell row endIdx (.str "")) = some e ∧ d = e - today ∧ ¬ today > e) ∧
    subStatusOf row subIdx = "TRUE" ∧
    0 ≤ d ∧ d ≤ 3 ∧ reminderFlag row threeIdx = false ∧ threeIdx ≠ -1 ∧
    sendOk rn .three = true ∧ SweepEffect.writeCell threeIdx rn "TRUE" ∈ effs := by
  simp only [processRow] at h
  split at h
  · simp only [Option.some.injEq] at h; subst h; cases he
  · split at h
    · simp only [Option.some.injEq] at h; subst h; cases he
    · rename_i hidm hendv
      split at h
      · cases h
      · rename_i endDt hser
        split at h
        · exfalso
          simp only [Option.some.injEq] at h
          subst h
          split at he
          · rcases List.mem_cons.mp he with hcon | he2
            · cases hcon
            · split at he2
              · rcases List.mem_singleton.mp he2 with hcon; cases hcon
              · cases he2
          · cases he
        · rename_i hnotexp
          split at h
          · simp only [Option.some.injEq] at h; subst h; cases he
          · rename_i hsub
            simp only [Option.some.injEq] at h
            subst h
            rcases List.mem_append.mp he with h10 | h3
            · exfalso
              split at h10
              · split at h10
                · rcases List.mem_cons.mp h10 with hcon | h10b
                  · cases hcon
                  · rcases List.mem_singleton.mp h10b with hcon; cases hcon
                · cases h10
              · cases h10
            · split at h3
              · rename_i hcond
                split at h3
                · rename_i hsend
                  rcases List.mem_cons.mp h3 with heq | h3b
                  · injection heq with e1 e2 e3
                    subst e1; subst e2; subst e3
                    refine ⟨rfl, rfl, ⟨endDt, hser, rfl, hnotexp⟩, ?_, hcond.1, hcond.2.1,
                      hcond.2.2.1, hcond.2.2.2, hsend, ?_⟩
                    · by_contra hs
                      exact hsub hs
                    · exact List.mem_append.mpr (Or.inr (by
                        rw [if_pos hcond, if_pos hsend]
                        exact List.mem_cons_of_mem _ (List.mem_singleton.mpr rfl)))
                  · rcases List.mem_singleton.mp h3b with hcon; cases hcon
                · cases h3
              · cases h3

theorem processRow_expired {idIdx endIdx subIdx tenIdx threeIdx : Int} {today : Int}
    {sendOk : Nat → SendKind → Bool} {rn : Nat} {row : List PyVal} {effs : List SweepEffect}
    (h : processRow idIdx endIdx subIdx tenIdx threeIdx today sendOk rn row = some effs)
    (hid : idMissing (safeCell row idIdx (.str "")) = false)
    (hendv : pyTruthy (safeCell row endIdx (.str "")) = true)
    {e : Int} (hser : rowEndSerial (safeCell row endIdx (.str "")) = some e)
    (hexp : today > e) :
    (subStatusOf row subIdx = "TRUE" →
      effs = SweepEffect.writeCell subIdx rn "FALSE" ::
        (if sendOk rn .expired then
          [SweepEffect.sendExpired rn (chatId (safeCell row idIdx (.str "")))] else [])) ∧
    (subStatusOf row subIdx ≠ "TRUE" → effs = []) := by
  simp only [processRow, hid, Bool.false_eq_true, Bool.true_eq_false, if_false, hendv, hser,
    if_pos hexp, Option.some.injEq] at h
  subst h
  constructor
  · intro hsub
    rw [if_pos hsub]
  · intro hsub
    rw [if_neg hsub]

theorem processRow_sendExpired {idIdx endIdx subIdx tenIdx threeIdx : Int} {today : Int}
    {sendOk : Nat → SendKind → Bool} {rn : Nat} {row : List PyVal} {effs : List SweepEffect}
    (h : processRow idIdx endIdx subIdx tenIdx threeIdx today sendOk rn row = some effs)
    {rn' : Nat} {chat : PyVal} (he : SweepEffect.sendExpired rn' chat ∈ effs) :
    rn' = rn ∧ subStatusOf row subIdx = "TRUE" ∧ sendOk rn .expired = true ∧
    (∃ e, rowEndSerial (safeCell row endIdx (.str "")) = some e ∧ today > e) := by
  simp only [processRow] at h
  split at h
  · simp only [Option.some.injEq] at h; subst h; cases he
  · split at h
    · simp only [Option.some.injEq] at h; subst h; cases he
    · split at h
      · cases h
      · rename_i endDt hser
        split at h
        · rename_i hexp
          simp only [Option.some.injEq] at h
          subst h
          split at he
          · rename_i hsub
            rcases List.mem_cons.mp he with hcon | he2
            · cases hcon
            · split at he2
              · rename_i hsend
                rcases List.mem_singleton.mp he2 with heq
                injection heq with e1 e2
                subst e1
                exact ⟨rfl, hsub, hsend, endDt, hser, hexp⟩
              · cases he2
          · cases he
        · split at h
          · simp only [Option.some.injEq] at h; subst h; cases he
          · exfalso
            simp only [Option.some.injEq] at h
            subst h
            rcases List.mem_append.mp he with h10 | h3
            · split at h10
              · split at h10
                · rcases List.mem_cons.mp h10 with hcon | h10b
                  · cases hcon
                  · rcases List.mem_singleton.mp h10b with hcon; cases hcon
                · cases h10
              · cases h10
            · split at h3
              · split at h3
                · rcases List.mem_cons.mp h3 with hcon | h3b
                  · cases hcon
                  · rcases List.mem_singleton.mp h3b with hcon; cases hcon
                · cases h3
              · cases h3

theorem sweepAux_mem_of (f : Nat → List PyVal → Option (List SweepEffect)) :
    ∀ (start : Nat) (rows : List (List PyVal)),
      (∀ (k : Nat) (r : List PyVal), r ∈ rows → f k r ≠ Option.none) →
      ∀ (i : Nat) (row : List PyVal) (effs : List SweepEffect) (e : SweepEffect),
        rows.get? i = some row → f (start + i) row = some effs → e ∈ effs →
        e ∈ sweepAux f start rows := by
  intro start rows
  induction rows generalizing start with
  | nil => intro _ i row effs e hget; cases hget
  | cons r rest ih =>
    intro hno i row effs e hget hf he
    match i, hget with
    | 0, hget =>
      have hr : row = r := by injection hget with h0; exact h0.symm
      subst hr
      show e ∈ sweepAux f start (row :: rest)
      rw [sweepAux]
      rw [Nat.add_zero] at hf
      rw [hf]
      exact List.mem_append.mpr (Or.inl he)
    | Nat.succ i', hget =>
      show e ∈ sweepAux f start (r :: rest)
      rw [sweepAux]
      cases hfr : f start r with
      | none => exact absurd hfr (hno start r (List.mem_cons_self r rest))
      | some effs0 =>
        refine List.mem_append.mpr (Or.inr ?_)
        refine ih (start + 1) (fun k r' hr' => hno k r' (List.mem_cons_of_mem r hr'))
          i' row effs e hget ?_ he
        rw [← hf]
        congr 1
        omega

theorem sweepAux_mem_inv (f : Nat → List PyVal → Option (List SweepEffect)) :
    ∀ (start : Nat) (rows : List (List PyVal)) (e : SweepEffect),
      e ∈ sweepAux f start rows →
      ∃ (i : Nat) (row : List PyVal) (effs : List SweepEffect),
        rows.get? i = some row ∧ f (start + i) row = some effs ∧ e ∈ effs := by
  intro start rows
  induction rows generalizing start with
  | nil => intro e he; cases he
  | cons r rest ih =>
    intro e he
    rw [sweepAux] at he
    cases hfr : f start r with
    | none => rw [hfr] at he; cases he
    | some effs0 =>
      rw [hfr] at he
      rcases List.mem_append.mp he with h0 | hrec
      · exact ⟨0, r, effs0, rfl, by rw [Nat.add_zero]; exact hfr, h0⟩
      · obtain ⟨i, row, effs, hget, hf, hmem⟩ := ih (start + 1) e hrec
        exact ⟨i + 1, row, effs, hget, by rw [← hf]; congr 1; omega, hmem⟩

theorem sweep_effect_local {headers : List String} {rows : List (List PyVal)} {today : Int}
    {sendOk : Nat → SendKind → Bool} {rn : Nat} {row : List PyVal}
    (hrn : 2 ≤ rn) (hrow : rows.get? (rn - 2) = some row)
    (hguard : ¬(sweepIdIdx headers = -1 ∨ sweepEndIdx headers = -1 ∨ sweepSubIdx headers = -1))
    {e : SweepEffect}
    (he : e ∈ check_subscriptions_and_send_reminders headers rows today sendOk)
    (hrne : rowNumOf e = rn) :
    ∃ effs, sweepRow headers today sendOk rn row = some effs ∧ e ∈ effs := by
  rw [check_subscriptions_and_send_reminders, if_neg hguard] at he
  obtain ⟨i, row', effs', hget, hf, hmem⟩ := sweepAux_mem_inv _ 2 rows e he
  have hrn2 : rowNumOf e = 2 + i := processRow_rowNum hf e hmem
  have hieq : i = rn - 2 := by omega
  subst hieq
  have hrr : row' = row := by
    rw [hget] at hrow
    injection hrow
  subst hrr
  refine ⟨effs', ?_, hmem⟩
  rw [← hf]
  congr 1
  omega

theorem sweep_effect_global {headers : List String} {rows : List (List PyVal)} {today : Int}
    {sendOk : Nat → SendKind → Bool} {rn : Nat} {row : List PyVal}
    (hrn : 2 ≤ rn) (hrow : rows.get? (rn - 2) = some row)
    (hguard : ¬(sweepIdIdx headers = -1 ∨ sweepEndIdx headers = -1 ∨ sweepSubIdx headers = -1))
    (hno : ∀ (k : Nat) (r : List PyVal), r ∈ rows → sweepRow headers today sendOk k r ≠ Option.none)
    {effs : List SweepEffect} {e : SweepEffect}
    (hf : sweepRow headers today sendOk rn row = some effs) (hmem : e ∈ effs) :
    e ∈ check_subscriptions_and_send_reminders headers rows today sendOk := by
  rw [check_subscriptions_and_send_reminders, if_neg hguard]
  refine sweepAux_mem_of _ 2 rows hno (rn - 2) row effs e hrow ?_ hmem
  rw [← hf]
  congr 1
  omega

/-- C1: during a sweep, a 10-day reminder for a row goes out only when the
row subscription reads TRUE, the end date lies `d` days ahead with
`2 ≤ d ≤ 10`, and the `10DaysReminder` flag does not read TRUE, and the
flag cell is then written TRUE; likewise the 3-day reminder for
`0 ≤ d ≤ 3` with the `3DaysReminder` flag.  Consequently a sweep in which
a flag reads TRUE never sends that reminder again for the row. -/
theorem C1_reminder_flags
    (headers : List String) (rows : List (List PyVal)) (today : Int)
    (sendOk : Nat → SendKind → Bool) (rn : Nat) (row : List PyVal)
    (hrn : 2 ≤ rn) (hrow : rows.get? (rn - 2) = some row)
    (hguard : ¬(sweepIdIdx headers = -1 ∨ sweepEndIdx headers = -1 ∨ sweepSubIdx headers = -1))
    (hno : ∀ (k : Nat) (r : List PyVal), r ∈ rows →
      sweepRow headers today sendOk k r ≠ Option.none) :
    (∀ (chat : PyVal) (e d : Int),
      SweepEffect.sendTen rn chat e d ∈
          check_subscriptions_and_send_reminders headers rows today sendOk →
        subStatusOf row (sweepSubIdx headers) = "TRUE" ∧
        rowEndSerial (safeCell row (sweepEndIdx headers) (.str "")) = some e ∧
        d = e - today ∧ 2 ≤ d ∧ d ≤ 10 ∧
        reminderFlag row (sweepTenIdx headers) = false ∧
        SweepEffect.writeCell (sweepTenIdx headers) rn "TRUE" ∈
          check_subscriptions_and_send_reminders headers rows today sendOk) ∧
    (reminderFlag row (sweepTenIdx headers) = true →
      ∀ (chat : PyVal) (e d : Int),
        SweepEffect.sendTen rn chat e d ∉
          check_subscriptions_and_send_reminders headers rows today sendOk) ∧
    (∀ (chat : PyVal) (d : Int),
      SweepEffect.sendThree rn chat d ∈
          check_subscriptions_and_send_reminders headers rows today sendOk →
        subStatusOf row (sweepSubIdx headers) = "TRUE" ∧
        (∃ e, rowEndSerial (safeCell row (sweepEndIdx headers) (.str "")) = some e ∧
          d = e - today) ∧
        0 ≤ d ∧ d ≤ 3 ∧
        reminderFlag row (sweepThreeIdx headers) = false ∧
        SweepEffect.writeCell (sweepThreeIdx headers) rn "TRUE" ∈
          check_subscriptions_and_send_reminders headers rows today sendOk) ∧
    (reminderFlag row (sweepThreeIdx headers) = true →
      ∀ (chat : PyVal) (d : Int),
        SweepEffect.sendThree rn chat d ∉
          check_subscriptions_and_send_reminders headers rows today sendOk) := by
  have ten : ∀ (chat : PyVal) (e d : Int),
      SweepEffect.sendTen rn chat e d ∈
          check_subscriptions_and_send_reminders headers rows today sendOk →
        subStatusOf row (sweepSubIdx headers) = "TRUE" ∧
        rowEndSerial (safeCell row (sweepEndIdx headers) (.str "")) = some e ∧
        d = e - today ∧ 2 ≤ d ∧ d ≤ 10 ∧
        reminderFlag row (sweepTenIdx headers) = false ∧
        SweepEffect.writeCell (sweepTenIdx headers) rn "TRUE" ∈
          check_subscriptions_and_send_reminders headers rows today sendOk := by
    intro chat e d he
    obtain ⟨effs, hf, hmem⟩ := sweep_effect_local hrn hrow hguard he rfl
    obtain ⟨_, _, hser, hd, _, hsub, hd2, hd10, hflag, _, _, hwrite⟩ :=
      processRow_sendTen hf hmem
    exact ⟨hsub, hser, hd, hd2, hd10, hflag,
      sweep_effect_global hrn hrow hguard hno hf hwrite⟩
  have three : ∀ (chat : PyVal) (d : Int),
      SweepEffect.sendThree rn chat d ∈
          check_subscriptions_and_send_reminders headers rows today sendOk →
        subStatusOf row (sweepSubIdx headers) = "TRUE" ∧
        (∃ e, rowEndSerial (safeCell row (sweepEndIdx headers) (.str "")) = some e ∧
          d = e - today) ∧
        0 ≤ d ∧ d ≤ 3 ∧
        reminderFlag row (sweepThreeIdx headers) = false ∧
        SweepEffect.writeCell (sweepThreeIdx headers) rn "TRUE" ∈
          check_subscriptions_and_send_reminders headers rows today sendOk := by
    intro chat d he
    obtain ⟨effs, hf, hmem⟩ := sweep_effect_local hrn hrow hguard he rfl
    obtain ⟨_, _, ⟨e, hser, hd, _⟩, hsub, hd0, hd3, hflag, _, _, hwrite⟩ :=
      processRow_sendThree hf hmem
    exact ⟨hsub, ⟨e, hser, hd⟩, hd0, hd3, hflag,
      sweep_effect_global hrn hrow hguard hno hf hwrite⟩
  refine ⟨ten, ?_, three, ?_⟩
  · intro hflag chat e d he
    have := (ten chat e d he).2.2.2.2.2.1
    rw [hflag] at this
    cases this
  · intro hflag chat d he
    have := (three chat d he).2.2.2.2.1
    rw [hflag] at this
    cases this

/-- Concrete header row used in sweep witnesses. -/
def witnessHeaders : List String :=
  ["ID", "End_Date", "Subscription", "10DaysReminder", "3DaysReminder"]

/-- Concrete subscribed student row with serial end date 100. -/
def witnessRow : List PyVal :=
  [PyVal.int 123, PyVal.int 100, PyVal.str "TRUE", PyVal.str "FALSE", PyVal.str "FALSE"]

/-- Witness for C1: on day 95 (five days before expiry) the sweep sends the
10-day reminder for the row and writes its flag TRUE. -/
theorem C1_reminder_flags_witness :
    reminderFlag witnessRow (sweepTenIdx witnessHeaders) = false ∧
    SweepEffect.writeCell (sweepTenIdx witnessHeaders) 2 "TRUE" ∈
      check_subscriptions_and_send_reminders witnessHeaders [witnessRow] 95
        (fun _ _ => true) := by
  have h := (C1_reminder_flags witnessHeaders [witnessRow] 95 (fun _ _ => true) 2 witnessRow
    (by omega) (by decide) (by decide)
    (by
      intro k r hr
      have hr' : r = witnessRow := by simpa using hr
      subst hr'
      intro hcon
      exact Option.noConfusion hcon)).1
    (PyVal.int 123) 100 5 (by decide)
  exact ⟨h.2.2.2.2.2.1, h.2.2.2.2.2.2⟩

/-- C4: for a processed row whose end date is strictly before today, the
sweep writes FALSE into the Subscription cell and sends the expiry
notification exactly when the cell reads TRUE, leaves rows reading FALSE
untouched, and never sends a 10-day or 3-day threshold reminder for the
expired row. -/
theorem C4_expiry_flip
    (headers : List String) (rows : List (List PyVal)) (today : Int)
    (sendOk : Nat → SendKind → Bool) (rn : Nat) (row : List PyVal)
    (hrn : 2 ≤ rn) (hrow : rows.get? (rn - 2) = some row)
    (hguard : ¬(sweepIdIdx headers = -1 ∨ sweepEndIdx headers = -1 ∨ sweepSubIdx headers = -1))
    (hno : ∀ (k : Nat) (r : List PyVal), r ∈ rows →
      sweepRow headers today sendOk k r ≠ Option.none)
    (hid : idMissing (safeCell row (sweepIdIdx headers) (.str "")) = false)
    (hendv : pyTruthy (safeCell row (sweepEndIdx headers) (.str "")) = true)
    (e : Int) (hser : rowEndSerial (safeCell row (sweepEndIdx headers) (.str "")) = some e)
    (hexp : e < today) :
    (subStatusOf row (sweepSubIdx headers) = "TRUE" →
      SweepEffect.writeCell (sweepSubIdx headers) rn "FALSE" ∈
        check_subscriptions_and_send_reminders headers rows today sendOk ∧
      (sendOk rn .expired = true →
        SweepEffect.sendExpired rn (chatId (safeCell row (sweepIdIdx headers) (.str ""))) ∈
          check_subscriptions_and_send_reminders headers rows today sendOk)) ∧
    (∀ chat : PyVal, SweepEffect.sendExpired rn chat ∈
        check_subscriptions_and_send_reminders headers rows today sendOk →
      subStatusOf row (sweepSubIdx headers) = "TRUE") ∧
    (subStatusOf row (sweepSubIdx headers) = "FALSE" →
      ∀ eff ∈ check_subscriptions_and_send_reminders headers rows today sendOk,
        rowNumOf eff ≠ rn) ∧
    (∀ (chat : PyVal) (es d : Int), SweepEffect.sendTen rn chat es d ∉
      check_subscriptions_and_send_reminders headers rows today sendOk) ∧
    (∀ (chat : PyVal) (d : Int), SweepEffect.sendThree rn chat d ∉
      check_subscriptions_and_send_reminders headers rows today sendOk) := by
  obtain ⟨effs, hf⟩ : ∃ effs, sweepRow headers today sendOk rn row = some effs := by
    cases hcase : sweepRow headers today sendOk rn row with
    | none => exact absurd hcase (hno rn row (List.get?_mem hrow))
    | some effs => exact ⟨effs, rfl⟩
  have hgt : today > e := hexp
  have hchar := processRow_expired hf hid hendv hser hgt
  refine ⟨?_, ?_, ?_, ?_, ?_⟩
  · intro hsub
    have heffs := hchar.1 hsub
    constructor
    · refine sweep_effect_global hrn hrow hguard hno hf ?_
      rw [heffs]
      exact List.mem_cons_self _ _
    · intro hsend
      refine sweep_effect_global hrn hrow hguard hno hf ?_
      rw [heffs, if_pos hsend]
      exact List.mem_cons_of_mem _ (List.mem_singleton.mpr rfl)
  · intro chat he
    obtain ⟨effs', hf', hmem⟩ := sweep_effect_local hrn hrow hguard he rfl
    exact (processRow_sendExpired hf' hmem).2.1
  · intro hsub eff hmem hrne
    obtain ⟨effs', hf', hmem'⟩ := sweep_effect_local hrn hrow hguard hmem hrne
    have heq : effs' = effs := by
      rw [hf] at hf'
      injection hf' with h0
      exact h0.symm
    subst heq
    have hne : subStatusOf row (sweepSubIdx headers) ≠ "TRUE" := by
      rw [hsub]; decide
    rw [hchar.2 hne] at hmem'
    cases hmem'
  · intro chat es d he
    obtain ⟨effs', hf', hmem⟩ := sweep_effect_local hrn hrow hguard he rfl
    obtain ⟨_, _, hser', _, hnotexp, _⟩ := processRow_sendTen hf' hmem
    rw [hser] at hser'
    have : es = e := by injection hser' with h0; exact h0.symm
    subst this
    exact hnotexp hgt
  · intro chat d he
    obtain ⟨effs', hf', hmem⟩ := sweep_effect_local hrn hrow hguard he rfl
    obtain ⟨_, _, ⟨es, hser', _, hnotexp⟩, _⟩ := processRow_sendThree hf' hmem
    rw [hser] at hser'
    have : es = e := by injection hser' with h0; exact h0.symm
    subst this
    exact hnotexp hgt

/-- Witness for C4: on day 110 (after the serial-100 end date) the sweep
writes FALSE into the Subscription cell of the subscribed witness row and
sends it the expiry notification. -/
theorem C4_expiry_flip_witness :
    SweepEffect.writeCell (sweepSubIdx witnessHeaders) 2 "FALSE" ∈
      check_subscriptions_and_send_reminders witnessHeaders [witnessRow] 110
        (fun _ _ => true) ∧
    SweepEffect.sendExpired 2 (chatId (safeCell witnessRow (sweepIdIdx witnessHeaders)
        (.str ""))) ∈
      check_subscriptions_and_send_reminders witnessHeaders [witnessRow] 110
        (fun _ _ => true) := by
  have h := (C4_expiry_flip witnessHeaders [witnessRow] 110 (fun _ _ => true) 2 witnessRow
    (by omega) (by decide) (by decide)
    (by
      intro k r hr
      have hr' : r = witnessRow := by simpa using hr
      subst hr'
      intro hcon
      exact Option.noConfusion hcon)
    (by decide) (by decide) 100 (by decide) (by omega)).1 (by decide)
  exact ⟨h.1, h.2 rfl⟩

/- ### difflib: SequenceMatcher ratio and get_close_matches -/

/-- Ascending positions of `c` in `b` (the `b2j` index lists). -/
def occIdx (b : List Char) (c : Char) : List Nat :=
  b.enum.filterMap fun p => if p.2 = c then some p.1 else Option.none

/-- Autojunk test of `SequenceMatcher.__chain_b`: on sequences of 200+
elements, elements occurring more than `len // 100 + 1` times are dropped
from `b2j`. -/
def isPopular (b : List Char) (c : Char) : Bool :=
  b.length ≥ 200 && b.count c > b.length / 100 + 1

/-- The `b2j` mapping with popular elements purged. -/
def b2jOf (b : List Char) (c : Char) : List Nat :=
  if isPopular b c then [] else occIdx b c

/-- First-match association lookup with default 0 (`j2len.get(j-1, 0)`). -/
def lookupLen (l : List (Nat × Nat)) (j : Nat) : Nat :=
  ((l.find? fun p => p.1 = j).map Prod.snd).getD 0

/-- Inner loop of `find_longest_match` over the positions of `a[i]` in `b`:
skip positions before `blo`, break at `bhi`, extend runs recorded in
`j2len`, track the earliest-best block. -/
def flmInner (j2len : List (Nat × Nat)) (blo bhi i : Nat) :
    List Nat → List (Nat × Nat) → Nat × Nat × Nat → List (Nat × Nat) × (Nat × Nat × Nat)
  | [], newj2len, best => (newj2len, best)
  | j :: rest, newj2len, best =>
    if j < blo then flmInner j2len blo bhi i rest newj2len best
    else if bhi ≤ j then (newj2len, best)
    else
      let k := (if j = 0 then 0 else lookupLen j2len (j - 1)) + 1
      let best' := if k > best.2.2 then (i + 1 - k, j + 1 - k, k) else best
      flmInner j2len blo bhi i rest ((j, k) :: newj2len) best'

/-- Outer loop of `find_longest_match` over `i` in `range(alo, ahi)`. -/
def flmOuter (a : List Char) (b2jf : Char → List Nat) (blo bhi : Nat) :
    List Nat → List (Nat × Nat) → Nat × Nat × Nat → Nat × Nat × Nat
  | [], _, best => best
  | i :: rest, j2len, best =>
    let ai := (a.get? i).getD ' '
    let p := flmInner j2len blo bhi i (b2jf ai) [] best
    flmOuter a b2jf blo bhi rest p.1 p.2

/-- Leftward extension of the best block over equal, non-junk neighbours
(no junk function is installed, so only element equality matters). -/
def extendLeft (a b : List Char) (alo blo : Nat) :
    Nat → Nat × Nat × Nat → Nat × Nat × Nat
  | 0, best => best
  | fuel + 1, (bi, bj, bs) =>
    if alo < bi ∧ blo < bj ∧ (a.get? (bi - 1)).isSome ∧ a.get? (bi - 1) = b.get? (bj - 1) then
      extendLeft a b alo blo fuel (bi - 1, bj - 1, bs + 1)
    else (bi, bj, bs)

/-- Rightward extension of the best block over equal neighbours. -/
def extendRight (a b : List Char) (ahi bhi : Nat) :
    Nat → Nat × Nat × Nat → Nat × Nat × Nat
  | 0, best => best
  | fuel + 1, (bi, bj, bs) =>
    if bi + bs < ahi ∧ bj + bs < bhi ∧ (a.get? (bi + bs)).isSome ∧
        a.get? (bi + bs) = b.get? (bj + bs) then
      extendRight a b ahi bhi fuel (bi, bj, bs + 1)
    else (bi, bj, bs)

/-- Model of `SequenceMatcher.find_longest_match` restricted to
`alo..ahi` in `a` and `blo..bhi` in `b` (the junk-extension loops are
no-ops because no junk function is installed). -/
def findLongestMatch (a b : List Char) (b2jf : Char → List Nat)
    (alo ahi blo bhi : Nat) : Nat × Nat × Nat :=
  let core := flmOuter a b2jf blo bhi (List.range' alo (ahi - alo)) [] (alo, blo, 0)
  let left := extendLeft a b alo blo core.1 core
  extendRight a b ahi bhi ahi left

/-- Total size of all matching blocks (the queue recursion of
`get_matching_blocks`, summing only block sizes since `ratio` needs only
the sum).  The fuel strictly exceeds the recursion depth. -/
def matchedTotal (a b : List Char) (b2jf : Char → List Nat) :
    Nat → Nat → Nat → Nat → Nat → Nat
  | 0, _, _, _, _ => 0
  | fuel + 1, alo, ahi, blo, bhi =>
    let m := findLongestMatch a b b2jf alo ahi blo bhi
    if m.2.2 = 0 then 0
    else m.2.2 + matchedTotal a b b2jf fuel alo m.1 blo m.2.1 +
      matchedTotal a b b2jf fuel (m.1 + m.2.2) ahi (m.2.1 + m.2.2) bhi

/-- The `_calculate_ratio` helper: twice the match count over the total
length, or 1 when both sequences are empty. -/
def calcRatio (m len : Nat) : ℚ :=
  if len = 0 then 1 else 2 * (m : ℚ) / (len : ℚ)

/-- Model of `SequenceMatcher.ratio()` on `a` (seq1) and `b` (seq2). -/
def seqRatio (a b : List Char) : ℚ :=
  calcRatio (matchedTotal a b (b2jOf b) (a.length + b.length + 1) 0 a.length 0 b.length)
    (a.length + b.length)

/-- Loop of `quick_ratio`: walk `a`, consuming availability counts seeded
from the element counts of `b`. -/
def qrLoop (b : List Char) : List Char → List (Char × Int) → Nat → Nat
  | [], _, m => m
  | c :: rest, avail, m =>
    let found : Option (Char × Int) := avail.find? fun p => p.1 = c
    let numb : Int :=
      match found with
      | some p => p.2
      | Option.none => (b.count c : Int)
    let m' : Nat := if 0 < numb then m + 1 else m
    qrLoop b rest ((c, numb - 1) :: avail) m'

/-- Model of `SequenceMatcher.quick_ratio()`. -/
def quickRatio (a b : List Char) : ℚ :=
  calcRatio (qrLoop b a [] 0) (a.length + b.length)

/-- Model of `SequenceMatcher.real_quick_ratio()`. -/
def realQuickRatio (a b : List Char) : ℚ :=
  calcRatio (min a.length b.length) (a.length + b.length)

/-- Maximum of scored candidates under Python tuple ordering
(`heapq.nlargest(1, result)`): later entries win only when strictly
greater. -/
def nlargest1 : List (ℚ × String) → Option (ℚ × String)
  | [] => Option.none
  | p :: rest =>
    some (rest.foldl (fun best q =>
      if best.1 < q.1 ∨ (best.1 = q.1 ∧ best.2 < q.2) then q else best) p)

/-- Model of `difflib.get_close_matches(word, possibilities, n=1, cutoff)`:
keep the candidates whose three ratio bounds reach the cutoff, then pick
the largest scored pair. -/
def getCloseMatches1 (word : String) (possibilities : List String)
    (cutoff : ℚ) : Option String :=
  let scored := possibilities.filterMap fun x =>
    if cutoff ≤ realQuickRatio x.data word.data ∧ cutoff ≤ quickRatio x.data word.data ∧
        cutoff ≤ seqRatio x.data word.data then
      some (seqRatio x.data word.data, x)
    else Option.none
  (nlargest1 scored).map Prod.snd

/- ### Subject labels, synonyms and `_label_from_input` -/

/-- `ALLOWED_LABELS` (student_bot.py line 300). -/
def ALLOWED_LABELS : List String :=
  ["Francais", "Anglais", "Science", "Math", "Physique", "Histoire Geo"]

/-- `LABEL_TO_UNDERLYING` (student_bot.py lines 309-316). -/
def LABEL_TO_UNDERLYING : List (String × List String) :=
  [("Francais", ["French"]),
   ("Anglais", ["English"]),
   ("Physique", ["Physic"]),
   ("Math", ["Math"]),
   ("Science", ["Science"]),
   ("Histoire Geo", ["History", "Geography"])]

/-- `LABEL_TO_UNDERLYING.get(lb, [])`. -/
def labelUnderlying (lb : String) : List String :=
  ((LABEL_TO_UNDERLYING.find? fun p => p.1 = lb).map Prod.snd).getD []

/-- `SYN_TO_LABEL` (student_bot.py lines 319-336). -/
def SYN_TO_LABEL : List (String × String) :=
  [("english", "Anglais"), ("anglais", "Anglais"), ("englich", "Anglais"),
   ("inglish", "Anglais"), ("ang", "Anglais"), ("انجليزي", "Anglais"),
   ("انجليزية", "Anglais"),
   ("french", "Francais"), ("francais", "Francais"), ("français", "Francais"),
   ("francais" ++ apoStr, "Francais"), ("فرنسية", "Francais"),
   ("physic", "Physique"), ("physics", "Physique"), ("physique", "Physique"),
   ("فيزياء", "Physique"),
   ("math", "Math"), ("maths", "Math"), ("mathematiques", "Math"),
   ("mathematique", "Math"), ("mat", "Math"), ("رياضيات", "Math"),
   ("science", "Science"), ("sciences", "Science"), ("sci", "Science"),
   ("علوم", "Science")]

/-- Dictionary lookup in `SYN_TO_LABEL`. -/
def synLookup (k : String) : Option String :=
  (SYN_TO_LABEL.find? fun p => p.1 = k).map Prod.snd

/-- Delete the space character (`p.replace(" ", "")`). -/
def removeSpaces (s : String) : String := String.mk (s.data.filter fun c => c ≠ ' ')

/-- Combination patterns of `_looks_like_histoire_geo` (lines 341-345). -/
def histGeoPatterns : List String :=
  ["histoire geo", "histoire-geo", "histoiregéographie", "histoire et geo",
   "history geo", "history geography", "history&geography", "histoiregeo",
   "histoire et géo", "geo histoire", "histoire & geo"]

/-- Model of `_looks_like_histoire_geo` (student_bot.py lines 338-351). -/
def looksLikeHistoireGeo (text : String) : Bool :=
  let t := pyStrip (pyLower text)
  let tNospace := removeWS t
  (histGeoPatterns.any fun p => pyIn (removeSpaces p) tNospace) ||
  ((pyIn "histoire" t && pyIn "geo" t) || (pyIn "history" t && pyIn "geo" t))

/-- Model of `_label_from_input` (student_bot.py lines 353-379): empty input
maps to nothing; Histoire-Geo combinations win; then the synonym dictionary
on the lowercased input and its whitespace-free form; finally fuzzy
matching against `ALLOWED_LABELS` with cutoff 0.75. -/
def labelFromInput (raw : String) : Option String × Option String :=
  let txt := pyStrip raw
  if txt = "" then (Option.none, Option.none)
  else if looksLikeHistoireGeo txt then (some "Histoire Geo", some "combo")
  else
    let base := pyStrip (pyReplace (pyLower txt) "’" apoStr)
    let baseCompact := removeWS base
    match synLookup base with
    | some l => (some l, some "synonym")
    | Option.none =>
      match synLookup baseCompact with
      | some l => (some l, some "synonym")
      | Option.none =>
        match getCloseMatches1 txt ALLOWED_LABELS (3 / 4) with
        | some m => (some m, some "fuzzy")
        | Option.none => (Option.none, Option.none)

theorem foldl_max_mem (rest : List (ℚ × String)) :
    ∀ p : ℚ × String,
      rest.foldl (fun best q =>
        if best.1 < q.1 ∨ (best.1 = q.1 ∧ best.2 < q.2) then q else best) p ∈ p :: rest := by
  induction rest with
  | nil => intro p; exact List.mem_cons_self p []
  | cons q rest ih =>
    intro p
    rw [List.foldl_cons]
    have hmem := ih (if p.1 < q.1 ∨ (p.1 = q.1 ∧ p.2 < q.2) then q else p)
    rcases List.mem_cons.mp hmem with h | h
    · rw [h]
      split
      · exact List.mem_cons_of_mem p (List.mem_cons_self q rest)
      · exact List.mem_cons_self p (q :: rest)
    · exact List.mem_cons_of_mem p (List.mem_cons_of_mem q h)

theorem nlargest1_mem {l : List (ℚ × String)} {p : ℚ × String}
    (h : nlargest1 l = some p) : p ∈ l := by
  cases l with
  | nil => cases h
  | cons q rest =>
    simp only [nlargest1, Option.some.injEq] at h
    rw [← h]
    exact foldl_max_mem rest q

theorem getCloseMatches1_mem {word : String} {poss : List String} {cutoff : ℚ} {m : String}
    (h : getCloseMatches1 word poss cutoff = some m) : m ∈ poss := by
  simp only [getCloseMatches1, Option.map_eq_some'] at h
  obtain ⟨p, hp, rfl⟩ := h
  have hmem := nlargest1_mem hp
  rw [List.mem_filterMap] at hmem
  obtain ⟨x, hx, hfx⟩ := hmem
  by_cases hc : cutoff ≤ realQuickRatio x.data word.data ∧
      cutoff ≤ quickRatio x.data word.data ∧ cutoff ≤ seqRatio x.data word.data
  · rw [if_pos hc] at hfx
    injection hfx with hfx
    rw [← hfx]
    exact hx
  · rw [if_neg hc] at hfx
    cases hfx

theorem synLookup_allowed {k l : String} (h : synLookup k = some l) : l ∈ ALLOWED_LABELS := by
  simp only [synLookup, Option.map_eq_some'] at h
  obtain ⟨p, hp, rfl⟩ := h
  have hmem := List.mem_of_find?_eq_some hp
  have hall : ∀ q ∈ SYN_TO_LABEL, q.2 ∈ ALLOWED_LABELS := by decide
  exact hall p hmem

/-- C2: `_label_from_input` resolves dictionary strategies first (the
Histoire-Geo combination patterns, then the synonym dictionary on the
normalized input and its whitespace-free form) and only then falls back to
fuzzy matching with cutoff 0.75 restricted to `ALLOWED_LABELS`; its label
is always a member of the fixed allowed set or nothing. -/
theorem C2_label_from_input (raw : String) :
    ((labelFromInput raw).1 = Option.none ∨
      ∃ l ∈ ALLOWED_LABELS, (labelFromInput raw).1 = some l) ∧
    (pyStrip raw ≠ "" → looksLikeHistoireGeo (pyStrip raw) = true →
      labelFromInput raw = (some "Histoire Geo", some "combo")) ∧
    (∀ l, pyStrip raw ≠ "" → looksLikeHistoireGeo (pyStrip raw) = false →
      synLookup (pyStrip (pyReplace (pyLower (pyStrip raw)) "’" apoStr)) = some l →
      labelFromInput raw = (some l, some "synonym")) ∧
    (∀ l, pyStrip raw ≠ "" → looksLikeHistoireGeo (pyStrip raw) = false →
      synLookup (pyStrip (pyReplace (pyLower (pyStrip raw)) "’" apoStr)) = Option.none →
      synLookup (removeWS (pyStrip (pyReplace (pyLower (pyStrip raw)) "’" apoStr))) = some l →
      labelFromInput raw = (some l, some "synonym")) ∧
    (pyStrip raw ≠ "" → looksLikeHistoireGeo (pyStrip raw) = false →
      synLookup (pyStrip (pyReplace (pyLower (pyStrip raw)) "’" apoStr)) = Option.none →
      synLookup (removeWS (pyStrip (pyReplace (pyLower (pyStrip raw)) "’" apoStr))) = Option.none →
      (labelFromInput raw).1 = getCloseMatches1 (pyStrip raw) ALLOWED_LABELS (3 / 4)) ∧
    (∀ m, getCloseMatches1 (pyStrip raw) ALLOWED_LABELS (3 / 4) = some m →
      m ∈ ALLOWED_LABELS) := by
  refine ⟨?_, ?_, ?_, ?_, ?_, ?_⟩
  · by_cases hne : pyStrip raw = ""
    · left
      simp only [labelFromInput, if_pos hne]
    · by_cases hcombo : looksLikeHistoireGeo (pyStrip raw) = true
      · right
        refine ⟨"Histoire Geo", by decide, ?_⟩
        simp only [labelFromInput, if_neg hne, hcombo, if_true]
      · rw [Bool.not_eq_true] at hcombo
        cases hb : synLookup (pyStrip (pyReplace (pyLower (pyStrip raw)) "’" apoStr)) with
        | some l =>
          right
          refine ⟨l, synLookup_allowed hb, ?_⟩
          simp only [labelFromInput, if_neg hne, hcombo, Bool.false_eq_true, if_false, hb]
        | none =>
          cases hbc : synLookup (removeWS (pyStrip (pyReplace (pyLower (pyStrip raw)) "’" apoStr))) with
          | some l =>
            right
            refine ⟨l, synLookup_allowed hbc, ?_⟩
            simp only [labelFromInput, if_neg hne, hcombo, Bool.false_eq_true, if_false, hb, hbc]
          | none =>
            cases hf : getCloseMatches1 (pyStrip raw) ALLOWED_LABELS (3 / 4) with
            | some m =>
              right
              refine ⟨m, getCloseMatches1_mem hf, ?_⟩
              simp only [labelFromInput, if_neg hne, hcombo, Bool.false_eq_true, if_false,
                hb, hbc, hf]
            | none =>
              left
              simp only [labelFromInput, if_neg hne, hcombo, Bool.false_eq_true, if_false,
                hb, hbc, hf]
  · intro hne hcombo
    simp only [labelFromInput, if_neg hne, hcombo, if_true]
  · intro l hne hcombo hb
    simp only [labelFromInput, if_neg hne, hcombo, Bool.false_eq_true, if_false, hb]
  · intro l hne hcombo hb hbc
    simp only [labelFromInput, if_neg hne, hcombo, Bool.false_eq_true, if_false, hb, hbc]
  · intro hne hcombo hb hbc
    cases hf : getCloseMatches1 (pyStrip raw) ALLOWED_LABELS (3 / 4) with
    | some m =>
      simp only [labelFromInput, if_neg hne, hcombo, Bool.false_eq_true, if_false, hb, hbc, hf]
    | none =>
      simp only [labelFromInput, if_neg hne, hcombo, Bool.false_eq_true, if_false, hb, hbc, hf]
  · intro m hf
    exact getCloseMatches1_mem hf

/-- Witness for C2: the input `math` resolves through the synonym
dictionary to the allowed label `Math`. -/
theorem C2_label_from_input_witness :
    labelFromInput "math" = (some "Math", some "synonym") :=
  (C2_label_from_input "math").2.2.1 "Math" (by decide) (by decide) (by decide)

/- ### Registration wizards (student `/register`, admin `/add_student`) -/

/-- `ALLOWED_NIVEAUX` (student_bot.py line 71). -/
def ALLOWED_NIVEAUX : List String := ["3AS", "2AS", "1AS", "4AM", "3AM", "2AM", "1AM"]

/-- Conversation states of the `/register` flow (student_bot.py lines
63-66) and `ConversationHandler.END`. -/
def REG_NAME : Int := 3

/-- State collecting the phone number. -/
def REG_PHONE : Int := 4

/-- State collecting the niveau. -/
def REG_NIVEAU : Int := 5

/-- State collecting the subject list. -/
def REG_SUBJECTS : Int := 6

/-- State collecting the speciality. -/
def REG_SPECIALITY : Int := 7

/-- State collecting the payment method. -/
def REG_PAYMENT : Int := 8

/-- State collecting the subscription period. -/
def REG_PERIOD : Int := 9

/-- State waiting for the confirm button. -/
def REG_CONFIRM : Int := 10

/-- `ConversationHandler.END`. -/
def CONV_END : Int := -1

/-- The `reg` dict of `context.user_data` during `/register`; absent keys
default to the empty string / empty list, matching `r.get(key, default)`. -/
structure RegData where
  name : String := ""
  phone : String := ""
  niveau : String := ""
  speciality : String := ""
  payment : String := ""
  register_date : String := ""
  end_date : String := ""
  telegram_id : String := ""
  labels : List String := []
  subjects : List String := []
deriving DecidableEq

/-- Observable effects of wizard handlers: chat messages, Students-sheet
appends, Subjects_Channels ensurance calls and invite sends. -/
inductive WizEffect where
  | reply
  | editMessage
  | denyMsg
  | appendStudents (row : List String)
  | ensureChannels (niveau : String) (subjects : List String)
  | ensureChannelsCsv (niveau : String) (subjectsCsv : String)
  | inviteSent (key : String)
deriving DecidableEq

/-- Oracles for the external world: clock, sheet queries, Telegram. -/
structure Env where
  todayStr : String
  addMonths : Int → String
  existsById : String → Bool
  subjectMap : String → String
  inviteOk : String → Bool
  phoneExists : String → Bool
  tidExists : String → Bool
  freshId : String
  hasToken : Bool

/-- Forbidden separator characters of `_detect_bad_separators`
(student_bot.py lines 103-117). -/
def forbiddenSepChars : List Char :=
  ['،', '؛', '，', '、', ';', '|', '/', '\\', ':', '·', '•']

/-- Model of `_detect_bad_separators` (student_bot.py lines 92-131) as a
boolean: some error message is returned. -/
def detectBadSeparators (raw : String) : Bool :=
  (forbiddenSepChars.any fun ch => raw.data.contains ch) ||
  pyIn " و " raw || pyIn " and " (pyLower raw) ||
  raw.data.contains '\n' || raw.data.contains '\r'

/-- Collapse each maximal whitespace run to one underscore
(`re.sub(r'\s+', '_', s)`). -/
def wsRunsToUnderscore : List Char → List Char
  | [] => []
  | c :: rest =>
    if isPySpace c then '_' :: wsRunsToUnderscore (rest.dropWhile isPySpace)
    else c :: wsRunsToUnderscore rest
termination_by l => l.length
decreasing_by
  · simp only [List.length_cons]
    exact Nat.lt_succ_of_le ((List.dropWhile_sublist _).length_le)
  · simp only [List.length_cons]
    omega

/-- Whitespace-to-underscore normalization on strings. -/
def subUnderscore (s : String) : String := String.mk (wsRunsToUnderscore s.data)

/-- Model of `_key_for` (student_bot.py lines 269-271). -/
def keyFor (niveau subject : String) : String :=
  niveau ++ "_" ++ subUnderscore (pyStrip subject)

/-- Accumulating loop of `_validate_and_map_labels` (student_bot.py lines
1013-1038). -/
def vmlAux : List String → List String → List String → List String →
    List String × List String × List String
  | [], labels_ok, notes, invalid => (labels_ok, notes, invalid)
  | raw :: rest, labels_ok, notes, invalid =>
    match labelFromInput raw with
    | (Option.none, _) => vmlAux rest labels_ok notes (invalid ++ [raw])
    | (some label, reason) =>
      if label ∉ ALLOWED_LABELS then vmlAux rest labels_ok notes (invalid ++ [raw])
      else
        let labels_ok' := if label ∈ labels_ok then labels_ok else labels_ok ++ [label]
        let notes' :=
          match reason with
          | some r =>
            if r = "synonym" then notes ++ [raw ++ " → " ++ label]
            else if r = "fuzzy" then notes ++ [raw ++ " → " ++ label ++ " (تصحيح إملائي)"]
            else if r = "combo" then notes ++ [raw ++ " → " ++ label]
            else notes
          | Option.none => notes
        vmlAux rest labels_ok' notes' invalid

/-- Model of `_validate_and_map_labels`: final labels, notes, and the raw
tokens that could not be mapped. -/
def validateAndMapLabels (input_list : List String) :
    List String × List String × List String :=
  vmlAux input_list [] [] []

/-- First-occurrence deduplication loop of `_underlying_for_labels`
(student_bot.py lines 386-392). -/
def dedupAux : List String → List String → List String
  | [], _ => []
  | s :: rest, seen => if s ∈ seen then dedupAux rest seen else s :: dedupAux rest (s :: seen)

/-- Model of `_underlying_for_labels` (student_bot.py lines 381-392). -/
def underlyingForLabels (labels : List String) : List String :=
  dedupAux (labels.bind labelUnderlying) []

/-- Input reaching `reg_niveau`: a `niv:` button press or a text message. -/
inductive NivInput where
  | callback (data : String)
  | message (text : String)

/-- The `data.split(":", 1)[1]` extraction (for pattern-matched `niv:...`
callback data, which always contains a colon). -/
def pySplitColonTail (data : String) : String :=
  match data.data.dropWhile fun c => c ≠ ':' with
  | _ :: rest => String.mk rest
  | [] => ""

/-- Niveau decoded by `reg_niveau` from its input (student_bot.py lines
994-999). -/
def nivOf : NivInput → String
  | .callback data => pySplitColonTail data
  | .message text => pyUpper (pyStrip text)

/-- Model of `register_start` (student_bot.py lines 964-973): already
registered users get a button and the conversation ends; otherwise the
`reg` dict is initialized and the name is requested. -/
def register_start (env : Env) (uid : Int) : Option RegData × Int × List WizEffect :=
  if env.existsById (toString uid) then (Option.none, CONV_END, [.reply])
  else (some {}, REG_NAME, [.reply])

/-- Model of `reg_name` (student_bot.py lines 975-978). -/
def reg_name (text : String) (reg : RegData) : RegData × Int × List WizEffect :=
  ({reg with name := pyStrip text}, REG_PHONE, [.reply])

/-- Model of `reg_phone` (student_bot.py lines 980-991). -/
def reg_phone (text : String) (reg : RegData) : RegData × Int × List WizEffect :=
  ({reg with phone := pyStrip text}, REG_NIVEAU, [.reply])

/-- Model of `reg_niveau` (student_bot.py lines 993-1011). -/
def reg_niveau (inp : NivInput) (reg : RegData) : RegData × Int × List WizEffect :=
  let eff0 : List WizEffect :=
    match inp with
    | .callback _ => [.editMessage]
    | .message _ => []
  if nivOf inp ∉ ALLOWED_NIVEAUX then (reg, REG_NIVEAU, eff0 ++ [.reply])
  else ({reg with niveau := nivOf inp}, REG_SUBJECTS, eff0 ++ [.reply])

/-- Split a character list at every comma, keeping empty pieces, as
Python `s.split(1 comma)` does. -/
def splitCommaAux : List Char → List Char → List String
  | [], acc => [String.mk acc.reverse]
  | c :: rest, acc =>
      if c = ',' then String.mk acc.reverse :: splitCommaAux rest []
      else splitCommaAux rest (c :: acc)

/-- Python `s.split(1 comma)` on strings. -/
def pySplitComma (s : String) : List String := splitCommaAux s.data []

/-- Model of `reg_subjects` (student_bot.py lines 1040-1091): separator
check, empty-token check, label validation; on success the underlying
subject tokens are stored and the channel rows are ensured. -/
def reg_subjects (text : String) (reg : RegData) : RegData × Int × List WizEffect :=
  let raw := pyStrip text
  if detectBadSeparators raw then (reg, REG_SUBJECTS, [.reply])
  else
    let parts_raw := (pySplitComma raw).map pyStrip
    if parts_raw.any fun p => p = "" then (reg, REG_SUBJECTS, [.reply])
    else
      let typed := parts_raw.filter fun p => p ≠ ""
      let vml := validateAndMapLabels typed
      if vml.2.2 ≠ [] then (reg, REG_SUBJECTS, [.reply])
      else
        let underlying := underlyingForLabels vml.1
        ({reg with labels := vml.1, subjects := underlying}, REG_SPECIALITY,
          [.ensureChannels reg.niveau underlying, .reply])

/-- Model of `reg_speciality` (student_bot.py lines 1094-1097). -/
def reg_speciality (text : String) (reg : RegData) : RegData × Int × List WizEffect :=
  ({reg with speciality := pyStrip text}, REG_PAYMENT, [.reply])

/-- Model of `reg_payment` (student_bot.py lines 1099-1102). -/
def reg_payment (text : String) (reg : RegData) : RegData × Int × List WizEffect :=
  ({reg with payment := pyStrip text}, REG_PERIOD, [.reply])

/-- Model of `reg_period` (student_bot.py lines 1104-1147): a positive
month count or a `DD/MM/YYYY` date fixes the dates and moves to the
confirm step; anything else re-prompts. -/
def reg_period (env : Env) (uid : Int) (text : String) (reg : RegData) :
    RegData × Int × List WizEffect :=
  let txt := pyStrip text
  let success : String → RegData × Int × List WizEffect := fun ed =>
    ({reg with register_date := env.todayStr, end_date := ed, telegram_id := toString uid},
      REG_CONFIRM, [.reply])
  match pyToInt txt with
  | some m =>
    if 0 < m then success (env.addMonths m)
    else
      match parseDMY txt with
      | some t => success (formatYMD t.1 t.2.1 t.2.2)
      | Option.none => (reg, REG_PERIOD, [.reply])
  | Option.none =>
    match parseDMY txt with
    | some t => success (formatYMD t.1 t.2.1 t.2.2)
    | Option.none => (reg, REG_PERIOD, [.reply])

/-- Model of `reg_confirm` (student_bot.py lines 1149-1213): `reg_no`
cancels; an already-registered id ends quietly; otherwise the channel rows
are ensured, the student row is appended, and invites are sent where the
subject map has a group. -/
def reg_confirm (env : Env) (data : String) (reg? : Option RegData) :
    Option RegData × Int × List WizEffect :=
  if data = "reg_no" then (Option.none, CONV_END, [.editMessage])
  else
    let r := reg?.getD {}
    if env.existsById r.telegram_id then (Option.none, CONV_END, [.editMessage])
    else
      let underlying := r.subjects
      let subjects_csv := String.intercalate ", " underlying
      let row := [r.phone, r.name, subjects_csv, r.speciality, r.payment, r.telegram_id,
        r.register_date, r.end_date, "TRUE", "FALSE", "FALSE", r.niveau]
      let invites := r.labels.bind fun label =>
        (labelUnderlying label).bind fun subj =>
          let key := pyLower (keyFor r.niveau subj)
          if env.subjectMap key ≠ "" ∧ env.inviteOk key then [WizEffect.inviteSent key] else []
      (Option.none, CONV_END,
        [.ensureChannels r.niveau underlying, .appendStudents row] ++ invites ++ [.editMessage])

namespace AdminBot

/-- Conversation state collecting the phone (admin_bot.py lines 223-228). -/
def PHONE : Int := 0

/-- State collecting the student name. -/
def NAME : Int := 1

/-- State collecting the Telegram id. -/
def TELEGRAM_ID : Int := 2

/-- State collecting the subjects CSV. -/
def SUBJECTS : Int := 3

/-- State collecting the speciality. -/
def SPECIALITY : Int := 4

/-- State collecting the payment method. -/
def PAYMENT : Int := 5

/-- State collecting the subscription period. -/
def SUBSCRIPTION_PERIOD : Int := 6

/-- State waiting for the add-student confirm button. -/
def CONFIRM_ADD : Int := 12

/-- The `pending_student` dict built by `handle_subscription_period`
(admin_bot.py lines 362-375). -/
structure PendingStudent where
  phone : String
  name : String
  subjects : String
  speciality : String
  payment : String
  telegram_id : String
  register_date : String
  end_date : String
  subscription_status : String
  ten_days_reminder_sent : String
  three_days_reminder_sent : String
  niveau : String
deriving DecidableEq

/-- The admin bot's `context.user_data` during `/add_student`. -/
structure AdminData where
  niveau : String := ""
  name : String := ""
  phone : String := ""
  telegram_id : Option String := Option.none
  subjects : String := ""
  speciality : String := ""
  payment : String := ""
  adding_same_phone : Bool := false
  new_flow : Bool := false
  pending : Option PendingStudent := Option.none
deriving DecidableEq

/-- Model of `start_add_student` (admin_bot.py lines 235-250): requires a
niveau argument, clears the collected data and asks for the name. -/
def start_add_student (args : List String) (_ : AdminData) :
    AdminData × Int × List WizEffect :=
  match args with
  | [] => ({}, CONV_END, [.reply])
  | a :: _ =>
    let niveau := pyUpper (pyStrip a)
    if niveau = "" then ({}, CONV_END, [.reply])
    else ({ niveau := niveau, new_flow := true, adding_same_phone := false },
      NAME, [.reply])

/-- Model of `handle_name` (admin_bot.py lines 252-259). -/
def handle_name (text : String) (ud : AdminData) : AdminData × Int × List WizEffect :=
  let ud' := {ud with name := pyStrip text}
  if ud'.adding_same_phone then (ud', TELEGRAM_ID, [.reply])
  else (ud', PHONE, [.reply])

/-- Model of `handle_phone` (admin_bot.py lines 261-294): on a known phone
number the matches are shown and the conversation ends. -/
def handle_phone (env : Env) (text : String) (ud : AdminData) :
    AdminData × Int × List WizEffect :=
  if ud.adding_same_phone then (ud, TELEGRAM_ID, [.reply])
  else
    let phone := pyStrip text
    let ud' := {ud with phone := phone}
    if env.phoneExists phone then (ud', CONV_END, [.reply, .reply])
    else (ud', TELEGRAM_ID, [.reply])

/-- Model of `handle_telegram_id` (admin_bot.py lines 296-324): `skip`
draws a fresh id; a known id shows the matches and ends. -/
def handle_telegram_id (env : Env) (text : String) (ud : AdminData) :
    AdminData × Int × List WizEffect :=
  let tid0 := pyStrip text
  let tid := if pyLower tid0 = "skip" then env.freshId else tid0
  let ud' := {ud with telegram_id := some tid}
  if env.tidExists tid then (ud', CONV_END, [.reply])
  else (ud', SUBJECTS, [.reply])

/-- Model of `handle_subjects` (admin_bot.py lines 326-330). -/
def handle_subjects (text : String) (ud : AdminData) : AdminData × Int × List WizEffect :=
  ({ud with subjects := pyStrip text}, SPECIALITY, [.reply])

/-- Model of `handle_speciality` (admin_bot.py lines 332-336). -/
def handle_speciality (text : String) (ud : AdminData) : AdminData × Int × List WizEffect :=
  ({ud with speciality := pyStrip text}, PAYMENT, [.reply])

/-- Model of `handle_payment` (admin_bot.py lines 338-342). -/
def handle_payment (text : String) (ud : AdminData) : AdminData × Int × List WizEffect :=
  ({ud with payment := pyStrip text}, SUBSCRIPTION_PERIOD, [.reply])

/-- Model of `handle_subscription_period` (admin_bot.py lines 344-383):
on a valid period the pending-student dict is stored and confirmation is
requested. -/
def handle_subscription_period (env : Env) (text : String) (ud : AdminData) :
    AdminData × Int × List WizEffect :=
  let txt := pyStrip text
  let success : String → AdminData × Int × List WizEffect := fun ed =>
    let pending : PendingStudent :=
      { phone := ud.phone, name := ud.name, subjects := ud.subjects,
        speciality := ud.speciality, payment := ud.payment,
        telegram_id := ud.telegram_id.getD env.freshId,
        register_date := env.todayStr, end_date := ed,
        subscription_status := "TRUE", ten_days_reminder_sent := "FALSE",
        three_days_reminder_sent := "FALSE", niveau := ud.niveau }
    ({ud with pending := some pending}, CONFIRM_ADD, [.reply])
  match pyToInt txt with
  | some m =>
    if 0 < m then success (env.addMonths m)
    else
      match parseDMY txt with
      | some t => success (formatYMD t.1 t.2.1 t.2.2)
      | Option.none => (ud, SUBSCRIPTION_PERIOD, [.reply])
  | Option.none =>
    match parseDMY txt with
    | some t => success (formatYMD t.1 t.2.1 t.2.2)
    | Option.none => (ud, SUBSCRIPTION_PERIOD, [.reply])

/-- Replace runs of a literal backslash followed by `s` characters with an
underscore: the admin invite-key regex is the raw string `'\\s+'`, which
matches a backslash and then one or more `s`, not whitespace. -/
def backslashSRuns : List Char → List Char
  | [] => []
  | '\\' :: 's' :: rest => '_' :: backslashSRuns (rest.dropWhile fun c => c = 's')
  | c :: rest => c :: backslashSRuns rest
termination_by l => l.length
decreasing_by
  · simp only [List.length_cons]
    have h : (rest.dropWhile fun c => c = 's').length ≤ rest.length :=
      (List.dropWhile_sublist _).length_le
    omega
  · simp only [List.length_cons]
    omega

/-- String version of the admin key normalization. -/
def subBackslashS (s : String) : String := String.mk (backslashSRuns s.data)

/-- Invite keys computed in `confirm_add_student` (admin_bot.py lines
411-412). -/
def adminKeys (niveau subjectsCsv : String) : List String :=
  (pySplitComma subjectsCsv).filterMap fun s =>
    if pyStrip s ≠ "" then
      some (pyLower (niveau ++ "_" ++ subBackslashS (pyStrip s)))
    else Option.none

/-- Model of `confirm_add_student` (admin_bot.py lines 385-423): `no`
cancels; without a pending student nothing happens; otherwise the channel
rows are ensured, the student row is appended and invites are attempted. -/
def confirm_add_student (env : Env) (data : String) (ud : AdminData) :
    AdminData × Int × List WizEffect :=
  if data = "confirm_add_no" then ({ud with pending := Option.none}, CONV_END, [.editMessage])
  else
    match ud.pending with
    | Option.none => (ud, CONV_END, [.editMessage])
    | some p =>
      let row := [p.phone, p.name, p.subjects, p.speciality, p.payment, p.telegram_id,
        p.register_date, p.end_date, p.subscription_status, p.ten_days_reminder_sent,
        p.three_days_reminder_sent, p.niveau]
      let keys := adminKeys p.niveau p.subjects
      let invites := if keys ≠ [] ∧ env.hasToken then
          keys.bind fun k =>
            if env.subjectMap k ≠ "" ∧ env.inviteOk k then [WizEffect.inviteSent k] else []
        else []
      ({ud with pending := Option.none, adding_same_phone := false}, CONV_END,
        [.ensureChannelsCsv p.niveau p.subjects, .appendStudents row] ++ invites ++
          [.editMessage])

/-- An incoming update as seen by `admin_only`: the effective user (absent
for some update kinds) and whether it is a callback query. -/
structure Upd where
  userId : Option Int
  hasCallback : Bool

/-- Model of the `admin_only` decorator (admin_bot.py lines 58-65): a
missing or non-admin user is denied and the conversation ends without
invoking the wrapped handler. -/
def adminOnly (adminIds : List Int) (f : Upd → Int × List WizEffect) (u : Upd) :
    Int × List WizEffect :=
  match u.userId with
  | some uid => if uid ∈ adminIds then f u else (CONV_END, [.denyMsg])
  | Option.none => (CONV_END, [.denyMsg])

end AdminBot

/-- C9: for an update whose effective user is missing or not an admin,
every `admin_only`-wrapped handler ends the conversation with only the
denial message, independently of the wrapped handler, so no sheet access
or student mutation happens for non-admins. -/
theorem C9_admin_only_denies (adminIds : List Int)
    (f : AdminBot.Upd → Int × List WizEffect) (u : AdminBot.Upd)
    (h : ∀ i : Int, u.userId = some i → i ∉ adminIds) :
    AdminBot.adminOnly adminIds f u = (CONV_END, [WizEffect.denyMsg]) ∧
    (∀ g : AdminBot.Upd → Int × List WizEffect,
      AdminBot.adminOnly adminIds f u = AdminBot.adminOnly adminIds g u) ∧
    (∀ e ∈ (AdminBot.adminOnly adminIds f u).2, e = WizEffect.denyMsg) := by
  have hval : AdminBot.adminOnly adminIds f u = (CONV_END, [WizEffect.denyMsg]) := by
    unfold AdminBot.adminOnly
    cases hu : u.userId with
    | none => rfl
    | some uid => simp only [if_neg (h uid hu)]
  refine ⟨hval, ?_, ?_⟩
  · intro g
    have hval' : AdminBot.adminOnly adminIds g u = (CONV_END, [WizEffect.denyMsg]) := by
      unfold AdminBot.adminOnly
      cases hu : u.userId with
      | none => rfl
      | some uid => simp only [if_neg (h uid hu)]
    rw [hval, hval']
  · intro e he
    rw [hval] at he
    rcases List.mem_singleton.mp he with rfl
    rfl

/-- Witness for C9: user 5 is rejected when only 7 is an admin, even for a
handler that would append a student row. -/
theorem C9_admin_only_denies_witness :
    AdminBot.adminOnly [7] (fun _ => (0, [WizEffect.appendStudents []]))
      ⟨some 5, false⟩ = (CONV_END, [WizEffect.denyMsg]) :=
  (C9_admin_only_denies [7] (fun _ => (0, [WizEffect.appendStudents []])) ⟨some 5, false⟩
    (by intro i hi; injection hi with hi; subst hi; decide)).1

/-- C7: `reg_niveau` advances to the subjects state exactly for a niveau
in the allowed set and otherwise stays, and `reg_period` advances to the
confirm state exactly for a positive integer month count or a valid
`DD/MM/YYYY` date and otherwise stays. -/
theorem C7_wizard_steps :
    (∀ (inp : NivInput) (reg : RegData),
      ((reg_niveau inp reg).2.1 = REG_SUBJECTS ↔ nivOf inp ∈ ALLOWED_NIVEAUX) ∧
      ((reg_niveau inp reg).2.1 = REG_NIVEAU ↔ nivOf inp ∉ ALLOWED_NIVEAUX)) ∧
    (∀ (env : Env) (uid : Int) (text : String) (reg : RegData),
      ((reg_period env uid text reg).2.1 = REG_CONFIRM ↔
        ((∃ m : Int, pyToInt (pyStrip text) = some m ∧ 0 < m) ∨
          (parseDMY (pyStrip text)).isSome = true)) ∧
      ((reg_period env uid text reg).2.1 = REG_CONFIRM ∨
        (reg_period env uid text reg).2.1 = REG_PERIOD)) := by
  constructor
  · intro inp reg
    by_cases hmem : nivOf inp ∈ ALLOWED_NIVEAUX
    · have hst : (reg_niveau inp reg).2.1 = REG_SUBJECTS := by
        simp only [reg_niveau, if_neg (not_not_intro hmem)]
      rw [hst]
      exact ⟨iff_of_true rfl hmem, iff_of_false (by decide) (not_not_intro hmem)⟩
    · have hst : (reg_niveau inp reg).2.1 = REG_NIVEAU := by
        simp only [reg_niveau, if_pos hmem]
      rw [hst]
      exact ⟨iff_of_false (by decide) hmem, iff_of_true rfl hmem⟩
  · intro env uid text reg
    cases hint : pyToInt (pyStrip text) with
    | some m =>
      by_cases hm : 0 < m
      · have hst : (reg_period env uid text reg).2.1 = REG_CONFIRM := by
          simp only [reg_period, hint, if_pos hm]
        rw [hst]
        exact ⟨iff_of_true rfl (Or.inl ⟨m, rfl, hm⟩), Or.inl rfl⟩
      · cases hd : parseDMY (pyStrip text) with
        | some t =>
          have hst : (reg_period env uid text reg).2.1 = REG_CONFIRM := by
            simp only [reg_period, hint, if_neg hm, hd]
          rw [hst]
          exact ⟨iff_of_true rfl (Or.inr rfl), Or.inl rfl⟩
        | none =>
          have hst : (reg_period env uid text reg).2.1 = REG_PERIOD := by
            simp only [reg_period, hint, if_neg hm, hd]
          rw [hst]
          refine ⟨iff_of_false (by decide) ?_, Or.inr rfl⟩
          rintro (⟨m', hm', hpos⟩ | hsome)
          · injection hm' with hmm
            subst hmm
            exact hm hpos
          · exact Bool.noConfusion hsome
    | none =>
      cases hd : parseDMY (pyStrip text) with
      | some t =>
        have hst : (reg_period env uid text reg).2.1 = REG_CONFIRM := by
          simp only [reg_period, hint, hd]
        rw [hst]
        exact ⟨iff_of_true rfl (Or.inr rfl), Or.inl rfl⟩
      | none =>
        have hst : (reg_period env uid text reg).2.1 = REG_PERIOD := by
          simp only [reg_period, hint, hd]
        rw [hst]
        refine ⟨iff_of_false (by decide) ?_, Or.inr rfl⟩
        rintro (⟨m', hm', _⟩ | hsome)
        · cases hm'
        · exact Bool.noConfusion hsome

/-- Concrete oracle environment used by wizard witnesses. -/
def envW : Env :=
  { todayStr := "2024-01-01", addMonths := fun _ => "2024-03-31",
    existsById := fun _ => false, subjectMap := fun _ => "",
    inviteOk := fun _ => true, phoneExists := fun _ => false,
    tidExists := fun _ => false, freshId := "ab12cd34", hasToken := true }

/-- Witness for C7: the text `3as` advances the niveau step and the month
count `3` advances the period step. -/
theorem C7_wizard_steps_witness :
    (reg_niveau (NivInput.message "3as") {}).2.1 = REG_SUBJECTS ∧
    (reg_period envW 7 "3" {}).2.1 = REG_CONFIRM :=
  ⟨(C7_wizard_steps.1 (NivInput.message "3as") {}).1.mpr (by decide),
   (C7_wizard_steps.2 envW 7 "3" {}).1.mpr (Or.inl ⟨3, by decide, by decide⟩)⟩

theorem dedupAux_not_mem_seen :
    ∀ (l seen : List String) (x : String), x ∈ dedupAux l seen → x ∉ seen := by
  intro l
  induction l with
  | nil => intro seen x hx; cases hx
  | cons s rest ih =>
    intro seen x hx
    simp only [dedupAux] at hx
    split at hx
    · exact ih seen x hx
    · rcases List.mem_cons.mp hx with rfl | hx
      · rename_i hs; exact hs
      · intro hseen
        exact ih (s :: seen) x hx (List.mem_cons_of_mem s hseen)

theorem dedupAux_nodup : ∀ (l seen : List String), (dedupAux l seen).Nodup := by
  intro l
  induction l with
  | nil => intro seen; exact List.nodup_nil
  | cons s rest ih =>
    intro seen
    simp only [dedupAux]
    split
    · exact ih seen
    · refine List.Nodup.cons ?_ (ih (s :: seen))
      intro hmem
      exact dedupAux_not_mem_seen rest (s :: seen) s hmem (List.mem_cons_self s seen)

theorem dedupAux_sublist : ∀ (l seen : List String), (dedupAux l seen).Sublist l := by
  intro l
  induction l with
  | nil => intro seen; exact List.Sublist.refl []
  | cons s rest ih =>
    intro seen
    simp only [dedupAux]
    split
    · exact (ih seen).cons s
    · exact (ih (s :: seen)).cons₂ s

theorem dedupAux_mem :
    ∀ (l seen : List String) (x : String), x ∈ dedupAux l seen ↔ (x ∈ l ∧ x ∉ seen) := by
  intro l
  induction l with
  | nil => intro seen x; simp [dedupAux]
  | cons s rest ih =>
    intro seen x
    simp only [dedupAux]
    split
    · rename_i hs
      rw [ih seen x]
      constructor
      · rintro ⟨hx, hns⟩
        exact ⟨List.mem_cons_of_mem s hx, hns⟩
      · rintro ⟨hx, hns⟩
        rcases List.mem_cons.mp hx with rfl | hx
        · exact absurd hs hns
        · exact ⟨hx, hns⟩
    · rename_i hs
      constructor
      · intro hx
        rcases List.mem_cons.mp hx with rfl | hx
        · exact ⟨List.mem_cons_self x rest, hs⟩
        · rw [ih (s :: seen) x] at hx
          exact ⟨List.mem_cons_of_mem s hx.1, fun hc => hx.2 (List.mem_cons_of_mem s hc)⟩
      · rintro ⟨hx, hns⟩
        rcases List.mem_cons.mp hx with rfl | hx
        · exact List.mem_cons_self x _
        · by_cases hxs : x = s
          · subst hxs
            exact List.mem_cons_self x _
          · refine List.mem_cons_of_mem s ((ih (s :: seen) x).mpr ⟨hx, ?_⟩)
            intro hc
            rcases List.mem_cons.mp hc with h | h
            · exact hxs h
            · exact hns h

theorem vmlAux_invalid_nil :
    ∀ (input lok notes inv : List String), (vmlAux input lok notes inv).2.2 = [] →
      inv = [] ∧ ∀ tok ∈ input, ∃ l, (labelFromInput tok).1 = some l ∧ l ∈ ALLOWED_LABELS := by
  intro input
  induction input with
  | nil => intro lok notes inv h; exact ⟨h, by intro tok ht; cases ht⟩
  | cons raw rest ih =>
    intro lok notes inv h
    rcases hlf : labelFromInput raw with ⟨ol, orr⟩
    cases ol with
    | none =>
      simp only [vmlAux, hlf] at h
      have := (ih _ _ _ h).1
      exact absurd this (by simp)
    | some label =>
      simp only [vmlAux, hlf] at h
      by_cases hal : label ∈ ALLOWED_LABELS
      · rw [if_neg (not_not_intro hal)] at h
        obtain ⟨hinv, hrest⟩ := ih _ _ _ h
        refine ⟨hinv, ?_⟩
        intro tok ht
        rcases List.mem_cons.mp ht with rfl | ht
        · exact ⟨label, by rw [hlf], hal⟩
        · exact hrest tok ht
      · rw [if_pos hal] at h
        have := (ih _ _ _ h).1
        exact absurd this (by simp)

theorem vmlAux_labels_allowed :
    ∀ (input lok notes inv : List String), (∀ l ∈ lok, l ∈ ALLOWED_LABELS) →
      ∀ l ∈ (vmlAux input lok notes inv).1, l ∈ ALLOWED_LABELS := by
  intro input
  induction input with
  | nil => intro lok notes inv hok l hl; exact hok l hl
  | cons raw rest ih =>
    intro lok notes inv hok l hl
    rcases hlf : labelFromInput raw with ⟨ol, orr⟩
    cases ol with
    | none =>
      simp only [vmlAux, hlf] at hl
      exact ih _ _ _ hok l hl
    | some label =>
      simp only [vmlAux, hlf] at hl
      by_cases hal : label ∈ ALLOWED_LABELS
      · rw [if_neg (not_not_intro hal)] at hl
        refine ih _ _ _ ?_ l hl
        intro l' hl'
        split at hl'
        · exact hok l' hl'
        · rcases List.mem_append.mp hl' with h | h
          · exact hok l' h
          · rcases List.mem_singleton.mp h with rfl
            exact hal
      · rw [if_pos hal] at hl
        exact ih _ _ _ hok l hl

/-- Cleaned token list of `reg_subjects`: comma-split, stripped, blanks
dropped (student_bot.py lines 1053-1063). -/
def typedTokens (text : String) : List String :=
  ((pySplitComma (pyStrip text)).map pyStrip).filter fun p => p ≠ ""

/-- C6: a successful `reg_subjects` step stores exactly the deduplicated,
order-preserving underlying tokens of validated labels from the fixed
allowed set, re-prompts (leaving the data unchanged) when any typed token
cannot be mapped, and the committed CSV of `reg_confirm` is built from the
stored tokens. -/
theorem C6_labels_commit :
    (∀ (text : String) (reg : RegData),
      (reg_subjects text reg).2.1 = REG_SUBJECTS ∨
        (reg_subjects text reg).2.1 = REG_SPECIALITY) ∧
    (∀ (text : String) (reg : RegData),
      (reg_subjects text reg).2.1 = REG_SUBJECTS → (reg_subjects text reg).1 = reg) ∧
    (∀ (text : String) (reg : RegData),
      (reg_subjects text reg).2.1 = REG_SPECIALITY →
      (validateAndMapLabels (typedTokens text)).2.2 = [] ∧
      (∀ tok ∈ typedTokens text, ∃ l, (labelFromInput tok).1 = some l ∧ l ∈ ALLOWED_LABELS) ∧
      (∀ l ∈ (validateAndMapLabels (typedTokens text)).1, l ∈ ALLOWED_LABELS) ∧
      (reg_subjects text reg).1.subjects =
        underlyingForLabels (validateAndMapLabels (typedTokens text)).1 ∧
      (reg_subjects text reg).1.subjects.Nodup ∧
      (reg_subjects text reg).1.subjects.Sublist
        ((validateAndMapLabels (typedTokens text)).1.bind labelUnderlying) ∧
      (∀ x, x ∈ (reg_subjects text reg).1.subjects ↔
        x ∈ (validateAndMapLabels (typedTokens text)).1.bind labelUnderlying)) ∧
    (∀ (env : Env) (data : String) (reg? : Option RegData) (row : List String),
      WizEffect.appendStudents row ∈ (reg_confirm env data reg?).2.2 →
      row.get? 2 = some (String.intercalate ", " (reg?.getD {}).subjects)) := by
  refine ⟨?_, ?_, ?_, ?_⟩
  · intro text reg
    simp only [reg_subjects]
    split
    · exact Or.inl rfl
    · split
      · exact Or.inl rfl
      · split
        · exact Or.inl rfl
        · exact Or.inr rfl
  · intro text reg
    simp only [reg_subjects]
    split
    · intro _; rfl
    · split
      · intro _; rfl
      · split
        · intro _; rfl
        · intro hcon
          simp [REG_SPECIALITY, REG_SUBJECTS] at hcon
  · intro text reg
    simp only [reg_subjects]
    split
    · intro hcon
      simp [REG_SPECIALITY, REG_SUBJECTS] at hcon
    · split
      · intro hcon
        simp [REG_SPECIALITY, REG_SUBJECTS] at hcon
      · split
        · intro hcon
          simp [REG_SPECIALITY, REG_SUBJECTS] at hcon
        · rename_i hinv
          intro _
          simp only [ne_eq, not_not] at hinv
          have hinv' : (validateAndMapLabels (typedTokens text)).2.2 = [] := hinv
          refine ⟨hinv', (vmlAux_invalid_nil _ _ _ _ hinv').2, ?_, rfl, ?_, ?_, ?_⟩
          · exact vmlAux_labels_allowed _ _ _ _ (by intro l hl; cases hl)
          · exact dedupAux_nodup _ _
          · exact dedupAux_sublist _ _
          · intro x
            show x ∈ dedupAux ((validateAndMapLabels (typedTokens text)).1.bind labelUnderlying)
              [] ↔ x ∈ (validateAndMapLabels (typedTokens text)).1.bind labelUnderlying
            rw [dedupAux_mem]
            simp
  · intro env data reg? row hmem
    simp only [reg_confirm] at hmem
    split at hmem
    · rcases List.mem_singleton.mp hmem with hcon; cases hcon
    · split at hmem
      · rcases List.mem_singleton.mp hmem with hcon; cases hcon
      · rcases List.mem_append.mp hmem with h1 | h2
        · rcases List.mem_append.mp h1 with h3 | h4
          · rcases List.mem_cons.mp h3 with hcon | h5
            · cases hcon
            · rcases List.mem_singleton.mp h5 with heq
              injection heq with hrow
              subst hrow
              rfl
          · exfalso
            rw [List.mem_bind] at h4
            obtain ⟨lb, _, h6⟩ := h4
            rw [List.mem_bind] at h6
            obtain ⟨sj, _, h7⟩ := h6
            split at h7
            · rcases List.mem_singleton.mp h7 with hcon; cases hcon
            · cases h7
        · rcases List.mem_singleton.mp h2 with hcon; cases hcon

/-- Registration data used in the C6 witness. -/
def regW : RegData := { subjects := ["Math", "Anglais"] }

/-- The row appended by the confirm step in the C6 witness run. -/
def rowW : List String :=
  ["", "", "Math, Anglais", "", "", "", "", "", "TRUE", "FALSE", "FALSE", ""]

/-- Witness for C6: parsing the reply `Math, Anglais` yields no invalid
tokens, the stored subjects come from the canonical labels, and the
confirmed row's third cell is their comma-separated join. -/
theorem C6_labels_commit_witness :
    ((reg_subjects "Math, Anglais" ({} : RegData)).2.1 = REG_SUBJECTS ∨
      (reg_subjects "Math, Anglais" ({} : RegData)).2.1 = REG_SPECIALITY) ∧
    (validateAndMapLabels (typedTokens "Math, Anglais")).2.2 = [] ∧
    (reg_subjects "Math, Anglais" ({} : RegData)).1.subjects =
      underlyingForLabels (validateAndMapLabels (typedTokens "Math, Anglais")).1 ∧
    rowW.get? 2 = some (String.intercalate ", " ((some regW).getD {}).subjects) :=
  ⟨C6_labels_commit.1 "Math, Anglais" {},
   (C6_labels_commit.2.2.1 "Math, Anglais" {} (by decide)).1,
   (C6_labels_commit.2.2.1 "Math, Anglais" {} (by decide)).2.2.2.1,
   C6_labels_commit.2.2.2 envW "reg_yes" (some regW) rowW (by decide)⟩

/-- C5: a student row is appended to the Students sheet only by the two
confirm steps: in the student flow, among the two button answers only
`reg_yes` can make `reg_confirm` append and `reg_no` ends the wizard with
no append, while no other student handler ever emits an append; in the
admin flow, among the two button answers only `confirm_add_yes` can make
`confirm_add_student` append and `confirm_add_no` ends it with no append,
while no other admin handler ever emits an append. -/
theorem C5_commit_after_confirm :
    (∀ (env : Env) (data : String) (reg? : Option RegData) (row : List String),
      (data = "reg_yes" ∨ data = "reg_no") →
      WizEffect.appendStudents row ∈ (reg_confirm env data reg?).2.2 →
      data = "reg_yes") ∧
    (∀ (env : Env) (reg? : Option RegData),
      (reg_confirm env "reg_no" reg?).2.1 = CONV_END ∧
      ∀ row, WizEffect.appendStudents row ∉ (reg_confirm env "reg_no" reg?).2.2) ∧
    (∀ (env : Env) (uid : Int) (text : String) (inp : NivInput) (reg : RegData)
        (row : List String),
      WizEffect.appendStudents row ∉ (register_start env uid).2.2 ∧
      WizEffect.appendStudents row ∉ (reg_name text reg).2.2 ∧
      WizEffect.appendStudents row ∉ (reg_phone text reg).2.2 ∧
      WizEffect.appendStudents row ∉ (reg_niveau inp reg).2.2 ∧
      WizEffect.appendStudents row ∉ (reg_subjects text reg).2.2 ∧
      WizEffect.appendStudents row ∉ (reg_speciality text reg).2.2 ∧
      WizEffect.appendStudents row ∉ (reg_payment text reg).2.2 ∧
      WizEffect.appendStudents row ∉ (reg_period env uid text reg).2.2) ∧
    (∀ (env : Env) (data : String) (ud : AdminBot.AdminData) (row : List String),
      (data = "confirm_add_yes" ∨ data = "confirm_add_no") →
      WizEffect.appendStudents row ∈ (AdminBot.confirm_add_student env data ud).2.2 →
      data = "confirm_add_yes") ∧
    (∀ (env : Env) (ud : AdminBot.AdminData),
      (AdminBot.confirm_add_student env "confirm_add_no" ud).2.1 = CONV_END ∧
      ∀ row, WizEffect.appendStudents row ∉
        (AdminBot.confirm_add_student env "confirm_add_no" ud).2.2) ∧
    (∀ (env : Env) (text : String) (args : List String) (ud : AdminBot.AdminData)
        (row : List String),
      WizEffect.appendStudents row ∉ (AdminBot.start_add_student args ud).2.2 ∧
      WizEffect.appendStudents row ∉ (AdminBot.handle_name text ud).2.2 ∧
      WizEffect.appendStudents row ∉ (AdminBot.handle_phone env text ud).2.2 ∧
      WizEffect.appendStudents row ∉ (AdminBot.handle_telegram_id env text ud).2.2 ∧
      WizEffect.appendStudents row ∉ (AdminBot.handle_subjects text ud).2.2 ∧
      WizEffect.appendStudents row ∉ (AdminBot.handle_speciality text ud).2.2 ∧
      WizEffect.appendStudents row ∉ (AdminBot.handle_payment text ud).2.2 ∧
      WizEffect.appendStudents row ∉ (AdminBot.handle_subscription_period env text ud).2.2) := by
  refine ⟨?_, ?_, ?_, ?_, ?_, ?_⟩
  · intro env data reg? row hd h
    rcases hd with hd | hd
    · exact hd
    · subst hd; simp [reg_confirm] at h
  · intro env reg?
    refine ⟨by simp [reg_confirm], ?_⟩
    intro row h
    simp [reg_confirm] at h
  · intro env uid text inp reg row
    refine ⟨?_, ?_, ?_, ?_, ?_, ?_, ?_, ?_⟩ <;>
      (intro h;
       simp only [register_start, reg_name, reg_phone, reg_niveau, reg_subjects,
         reg_speciality, reg_payment, reg_period] at h;
       (repeat' split at h);
       all_goals simp at h)
  · intro env data ud row hd h
    rcases hd with hd | hd
    · exact hd
    · subst hd; simp [AdminBot.confirm_add_student] at h
  · intro env ud
    refine ⟨by simp [AdminBot.confirm_add_student], ?_⟩
    intro row h
    simp [AdminBot.confirm_add_student] at h
  · intro env text args ud row
    refine ⟨?_, ?_, ?_, ?_, ?_, ?_, ?_, ?_⟩ <;>
      (intro h;
       simp only [AdminBot.start_add_student, AdminBot.handle_name, AdminBot.handle_phone,
         AdminBot.handle_telegram_id, AdminBot.handle_subjects, AdminBot.handle_speciality,
         AdminBot.handle_payment, AdminBot.handle_subscription_period] at h;
       (repeat' split at h);
       all_goals simp at h)

/-- Pending admin student used in the C5 witness. -/
def pendingW : AdminBot.PendingStudent :=
  { phone := "0555", name := "Sam", subjects := "math", speciality := "",
    payment := "cash", telegram_id := "77", register_date := "2024-01-01",
    end_date := "2024-03-31", subscription_status := "TRUE",
    ten_days_reminder_sent := "FALSE", three_days_reminder_sent := "FALSE",
    niveau := "3AS" }

/-- Admin wizard data used in the C5 witness. -/
def udW : AdminBot.AdminData := { pending := some pendingW }

/-- The admin row appended in the C5 witness run. -/
def rowAdminW : List String :=
  ["0555", "Sam", "math", "", "cash", "77", "2024-01-01", "2024-03-31",
   "TRUE", "FALSE", "FALSE", "3AS"]

/-- Witness for C5: on the `yes` button both confirm steps do append their
collected row. -/
theorem C5_commit_after_confirm_witness :
    (WizEffect.appendStudents rowW ∈ (reg_confirm envW "reg_yes" (some regW)).2.2 ∧
      "reg_yes" = "reg_yes") ∧
    (WizEffect.appendStudents rowAdminW ∈
        (AdminBot.confirm_add_student envW "confirm_add_yes" udW).2.2 ∧
      "confirm_add_yes" = "confirm_add_yes") :=
  ⟨⟨by decide,
    C5_commit_after_confirm.1 envW "reg_yes" (some regW) rowW (Or.inl rfl) (by decide)⟩,
   ⟨by decide,
    C5_commit_after_confirm.2.2.2.1 envW "confirm_add_yes" udW rowAdminW (Or.inl rfl)
      (by decide)⟩⟩
